import Mathlib

/-!
Formal model of the ingestion-and-search core of the `agent-trace` repository
(Go sources under `internal/index`): the two JSONL event parsers, source
discovery, the incremental ingestion tracker, session aggregation and the
search fallback, together with theorems checking the specified properties.

Go strings are modelled as Lean `String` values manipulated through their
character lists; byte positions and byte lengths coincide with character
positions on the ASCII data the theorems evaluate.  All helpers mirror the
corresponding functions of the Go standard library as used by the sources.
-/

namespace AgentTrace

/-- Whitespace test mirroring Go `unicode.IsSpace` on the Latin-1 range
(space, tab, newline, vertical tab, form feed, carriage return, NEL, NBSP). -/
def isSpaceChar (c : Char) : Bool :=
  c = ' ' || c = '\t' || c = '\n' || c = '\x0b' || c = '\x0c' || c = '\r' ||
  c.toNat = 133 || c.toNat = 160

/-- Go `strings.TrimSpace`. -/
def trimSpace (s : String) : String :=
  ⟨((s.data.dropWhile isSpaceChar).reverse.dropWhile isSpaceChar).reverse⟩

/-- ASCII lower-casing of one character (Go `strings.ToLower` restricted to
the ASCII data handled here). -/
def lowerChar (c : Char) : Char :=
  if 65 ≤ c.toNat && c.toNat ≤ 90 then Char.ofNat (c.toNat + 32) else c

/-- Go `strings.ToLower` (ASCII). -/
def toLower (s : String) : String :=
  ⟨s.data.map lowerChar⟩

/-- Go `strings.HasPrefix`. -/
def hasPrefixStr (s pre : String) : Bool :=
  pre.data.isPrefixOf s.data

/-- Go `strings.HasSuffix`. -/
def hasSuffixStr (s post : String) : Bool :=
  post.data.reverse.isPrefixOf s.data.reverse

def containsSubAux (pat : List Char) : List Char → Bool
  | [] => pat.isEmpty
  | c :: t => pat.isPrefixOf (c :: t) || containsSubAux pat t

/-- Go `strings.Contains`. -/
def containsSub (s pat : String) : Bool :=
  containsSubAux pat.data s.data

def indexOfAux (pat : List Char) : List Char → Nat → Option Nat
  | [], i => if pat.isEmpty then some i else none
  | c :: t, i => if pat.isPrefixOf (c :: t) then some i else indexOfAux pat t (i + 1)

/-- Go `strings.Index` (position in characters; `none` stands for -1). -/
def indexOfStr (s pat : String) : Option Nat :=
  indexOfAux pat.data s.data 0

/-- Character-list take used for Go slicing `s[:n]`. -/
def takeStr (s : String) (n : Nat) : String :=
  ⟨s.data.take n⟩

/-- Character-list drop used for Go slicing `s[n:]`. -/
def dropStr (s : String) (n : Nat) : String :=
  ⟨s.data.drop n⟩

/-- Character-list length used for Go `len(s)` (bytes = chars on ASCII data). -/
def strLen (s : String) : Nat :=
  s.data.length

def splitOnCharAux (sep : Char) : List Char → List Char → List (List Char)
  | [], acc => [acc.reverse]
  | c :: t, acc =>
    if c = sep then acc.reverse :: splitOnCharAux sep t []
    else splitOnCharAux sep t (c :: acc)

/-- Go `strings.Split`; every separator the sources pass is one character
long, so the splitter works on a single separator character. -/
def splitOnStr (s : String) (sep : Char) : List String :=
  (splitOnCharAux sep s.data []).map (fun l => ⟨l⟩)

def replaceAllAux (old : Char) (new : List Char) : List Char → List Char
  | [] => []
  | c :: t => if c = old then new ++ replaceAllAux old new t else c :: replaceAllAux old new t

/-- Go `strings.ReplaceAll`; every pattern the sources pass is one character
long, so the replacer works on a single pattern character. -/
def replaceAllStr (s : String) (old : Char) (new : String) : String :=
  ⟨replaceAllAux old new.data s.data⟩

def fieldsAux : List Char → List Char → List String
  | [], acc => if acc.isEmpty then [] else [⟨acc.reverse⟩]
  | c :: t, acc =>
    if isSpaceChar c then
      if acc.isEmpty then fieldsAux t [] else ⟨acc.reverse⟩ :: fieldsAux t []
    else
      fieldsAux t (c :: acc)

/-- Go `strings.Fields`. -/
def fieldsStr (s : String) : List String :=
  fieldsAux s.data []

/-- Go `strings.Trim` with an explicit cutset of characters. -/
def trimCutset (s : String) (cutset : List Char) : String :=
  ⟨((s.data.dropWhile (cutset.contains ·)).reverse.dropWhile (cutset.contains ·)).reverse⟩

/-- Byte-wise (= code-point-wise) string comparison used by Go `<` / `≤` on
strings; UTF-8 byte order coincides with code-point order. -/
def charListLe : List Char → List Char → Bool
  | [], _ => true
  | _ :: _, [] => false
  | a :: as, b :: bs =>
    if a.toNat < b.toNat then true
    else if b.toNat < a.toNat then false
    else charListLe as bs

def strLe (a b : String) : Bool :=
  charListLe a.data b.data

/-- One trailing carriage return dropped from a scanned line
(`bufio.ScanLines` / `dropCR`). -/
def dropTrailingCR (l : List Char) : List Char :=
  match l.reverse with
  | '\r' :: t => t.reverse
  | _ => l

/-- Go `bufio.Scanner` with `ScanLines`: tokens between newlines, the trailing
carriage return of each token removed, no final empty token after a trailing
newline, and no token at all for empty input. -/
def goScanLines (s : String) : List String :=
  match s.data with
  | [] => []
  | c :: t =>
    let parts := (splitOnCharAux '\n' (c :: t) []).map (fun l => (⟨dropTrailingCR l⟩ : String))
    if hasSuffixStr s "\n" then parts.dropLast else parts

/-- Decoded JSON value, the result of `json.Unmarshal` into `any`.  Numbers in
the logs are integral (epoch timestamps), so they are modelled as `Int`;
objects are association lists with distinct keys (Go map semantics: a later
duplicate key overwrites the earlier one at decode time). -/
inductive Json where
  | null : Json
  | bool (b : Bool) : Json
  | num (n : Int) : Json
  | str (s : String) : Json
  | arr (elems : List Json) : Json
  | obj (entries : List (String × Json)) : Json

/-- Lookup of a key in a decoded object (`m[seg]`). -/
def objGet (entries : List (String × Json)) (k : String) : Option Json :=
  (entries.find? (fun e => e.1 = k)).map (·.2)

/-- Insertion of an earlier decoded entry below later ones: a later duplicate
key has already overwritten this one (Go map assignment order), so the entry
is dropped when its key is present. -/
def objPutIfAbsent (entries : List (String × Json)) (k : String) (v : Json) :
    List (String × Json) :=
  if (objGet entries k).isSome then entries else (k, v) :: entries

def natToDigitsAux : Nat → Nat → List Char → List Char
  | 0, _, acc => acc
  | fuel + 1, n, acc =>
    if n = 0 then acc else natToDigitsAux fuel (n / 10) (Char.ofNat (48 + n % 10) :: acc)

def natToStr (n : Nat) : String :=
  if n = 0 then "0" else ⟨natToDigitsAux (n + 1) n []⟩

/-- Decimal rendering of an integer (Go `%v` / `strconv` on integral values). -/
def intToStr (i : Int) : String :=
  if i < 0 then "-" ++ natToStr i.natAbs else natToStr i.toNat

def joinStr (sep : String) : List String → String
  | [] => ""
  | [x] => x
  | x :: y :: xs => x ++ sep ++ joinStr sep (y :: xs)

/-- Stable insertion by a boolean "less or equal" test. -/
def insertLeBy {α : Type} (le : α → α → Bool) (a : α) : List α → List α
  | [] => [a]
  | b :: t => if le a b then a :: b :: t else b :: insertLeBy le a t

/-- Stable insertion sort by a boolean "less or equal" test (the deterministic
model of Go `sort.Slice`, whose inputs here never carry equal keys). -/
def sortLeBy {α : Type} (le : α → α → Bool) : List α → List α
  | [] => []
  | a :: t => insertLeBy le a (sortLeBy le t)

def hexDigitChar (n : Nat) : Char :=
  if n < 10 then Char.ofNat (48 + n) else Char.ofNat (87 + n)

/-- Escaping of one character as performed by `encoding/json` (HTML escaping
of angle brackets and ampersand included, as Go does by default). -/
def jsonEscapeChar (c : Char) : List Char :=
  if c = '"' then ['\\', '"']
  else if c = '\\' then ['\\', '\\']
  else if c = '\n' then ['\\', 'n']
  else if c = '\r' then ['\\', 'r']
  else if c = '\t' then ['\\', 't']
  else if c.toNat < 32 || c = '<' || c = '>' || c = '&' then
    ['\\', 'u', '0', '0', hexDigitChar (c.toNat / 16), hexDigitChar (c.toNat % 16)]
  else [c]

def jsonQuote (s : String) : String :=
  "\"" ++ ⟨s.data.flatMap jsonEscapeChar⟩ ++ "\""

mutual

/-- Compact serialization of a decoded value, as `json.Marshal` renders it:
object keys sorted, no spaces, strings escaped. -/
def goJsonMarshal : Json → String
  | .null => "null"
  | .bool b => if b then "true" else "false"
  | .num n => intToStr n
  | .str s => jsonQuote s
  | .arr items => "[" ++ joinStr "," (marshalList items) ++ "]"
  | .obj entries =>
    let rendered := marshalEntries entries
    let sorted := sortLeBy (fun a b => strLe a.1 b.1) rendered
    "\x7b" ++ joinStr "," (sorted.map (fun p => jsonQuote p.1 ++ ":" ++ p.2)) ++ "\x7d"

def marshalList : List Json → List String
  | [] => []
  | x :: xs => goJsonMarshal x :: marshalList xs

def marshalEntries : List (String × Json) → List (String × String)
  | [] => []
  | (k, v) :: rest => (k, goJsonMarshal v) :: marshalEntries rest

end

mutual

/-- `fmt.Sprint` of a decoded value (`%v` formatting): maps print as
`map[k:v ...]` with sorted keys, slices as `[v v ...]`, `nil` as `<nil>`. -/
def goSprint : Json → String
  | .null => "<nil>"
  | .bool b => if b then "true" else "false"
  | .num n => intToStr n
  | .str s => s
  | .arr items => "[" ++ joinStr " " (sprintList items) ++ "]"
  | .obj entries =>
    let rendered := sprintEntries entries
    let sorted := sortLeBy (fun a b => strLe a.1 b.1) rendered
    "map[" ++ joinStr " " (sorted.map (fun p => p.1 ++ ":" ++ p.2)) ++ "]"

def sprintList : List Json → List String
  | [] => []
  | x :: xs => goSprint x :: sprintList xs

def sprintEntries : List (String × Json) → List (String × String)
  | [] => []
  | (k, v) :: rest => (k, goSprint v) :: sprintEntries rest

end

/-- `asString` (parser.go): empty for nil, trimmed for strings, trimmed
`fmt.Sprint` rendering otherwise. -/
def asString : Json → String
  | .null => ""
  | .str s => trimSpace s
  | v => trimSpace (goSprint v)

def jsonSkipWs (l : List Char) : List Char :=
  l.dropWhile (fun c => c = ' ' || c = '\t' || c = '\n' || c = '\r')

def hexVal (c : Char) : Option Nat :=
  if 48 ≤ c.toNat && c.toNat ≤ 57 then some (c.toNat - 48)
  else if 97 ≤ c.toNat && c.toNat ≤ 102 then some (c.toNat - 87)
  else if 65 ≤ c.toNat && c.toNat ≤ 70 then some (c.toNat - 55)
  else none

def jsonParseString : Nat → List Char → Option (List Char × List Char)
  | 0, _ => none
  | _ + 1, [] => none
  | fuel + 1, c :: t =>
    if c = '"' then some ([], t)
    else if c = '\\' then
      match t with
      | [] => none
      | e :: t2 =>
        if e = 'u' then
          match t2 with
          | h1 :: h2 :: h3 :: h4 :: t3 =>
            match hexVal h1, hexVal h2, hexVal h3, hexVal h4 with
            | some a, some b, some cc, some d =>
              (jsonParseString fuel t3).map
                (fun r => (Char.ofNat (a * 4096 + b * 256 + cc * 16 + d) :: r.1, r.2))
            | _, _, _, _ => none
          | _ => none
        else
          match
            (if e = '"' then some '"'
             else if e = '\\' then some '\\'
             else if e = '/' then some '/'
             else if e = 'n' then some '\n'
             else if e = 't' then some '\t'
             else if e = 'r' then some '\r'
             else if e = 'b' then some (Char.ofNat 8)
             else if e = 'f' then some (Char.ofNat 12)
             else none) with
          | some ch => (jsonParseString fuel t2).map (fun r => (ch :: r.1, r.2))
          | none => none
    else (jsonParseString fuel t).map (fun r => (c :: r.1, r.2))

def digitsToNatAux : List Char → Nat → Option Nat
  | [], acc => some acc
  | c :: t, acc =>
    if 48 ≤ c.toNat && c.toNat ≤ 57 then digitsToNatAux t (acc * 10 + (c.toNat - 48))
    else none

def digitsToNat (l : List Char) : Option Nat :=
  match l with
  | [] => none
  | _ => digitsToNatAux l 0

/-- `strconv.ParseInt(s, 10, 64)`: optional sign, decimal digits only. -/
def parseIntStr (s : String) : Option Int :=
  match s.data with
  | '+' :: rest => (digitsToNat rest).map Int.ofNat
  | '-' :: rest => (digitsToNat rest).map (fun n => -(n : Int))
  | l => (digitsToNat l).map Int.ofNat

def jsonTakeDigits (l : List Char) : List Char × List Char :=
  (l.takeWhile (fun c => 48 ≤ c.toNat && c.toNat ≤ 57),
   l.dropWhile (fun c => 48 ≤ c.toNat && c.toNat ≤ 57))

/-- JSON number parser of the decoder: the integral numbers the logs carry
(optional minus, digits, no fraction/exponent — non-integral numbers do not
occur in the modelled inputs). -/
def jsonParseNum (l : List Char) : Option (Int × List Char) :=
  match l with
  | '-' :: rest =>
    let (ds, r) := jsonTakeDigits rest
    (digitsToNat ds).map (fun n => (-(n : Int), r))
  | _ =>
    let (ds, r) := jsonTakeDigits l
    (digitsToNat ds).map (fun n => ((n : Int), r))

mutual

def jsonParseVal : Nat → List Char → Option (Json × List Char)
  | 0, _ => none
  | fuel + 1, l =>
    match jsonSkipWs l with
    | [] => none
    | c :: t =>
      if c = '"' then (jsonParseString fuel t).map (fun r => (Json.str ⟨r.1⟩, r.2))
      else if c = '[' then
        match jsonSkipWs t with
        | ']' :: t2 => some (Json.arr [], t2)
        | _ => (jsonParseArrItems fuel t).map (fun r => (Json.arr r.1, r.2))
      else if c = '\x7b' then
        match jsonSkipWs t with
        | '\x7d' :: t2 => some (Json.obj [], t2)
        | _ => (jsonParseObjItems fuel t).map (fun r => (Json.obj r.1, r.2))
      else if c = 't' then
        if ['r', 'u', 'e'].isPrefixOf t then some (Json.bool true, t.drop 3) else none
      else if c = 'f' then
        if ['a', 'l', 's', 'e'].isPrefixOf t then some (Json.bool false, t.drop 4) else none
      else if c = 'n' then
        if ['u', 'l', 'l'].isPrefixOf t then some (Json.null, t.drop 3) else none
      else
        (jsonParseNum (c :: t)).map (fun r => (Json.num r.1, r.2))

def jsonParseArrItems : Nat → List Char → Option (List Json × List Char)
  | 0, _ => none
  | fuel + 1, l =>
    match jsonParseVal fuel l with
    | none => none
    | some (v, rest) =>
      match jsonSkipWs rest with
      | ',' :: t => (jsonParseArrItems fuel t).map (fun r => (v :: r.1, r.2))
      | ']' :: t => some ([v], t)
      | _ => none

def jsonParseObjItems : Nat → List Char → Option (List (String × Json) × List Char)
  | 0, _ => none
  | fuel + 1, l =>
    match jsonSkipWs l with
    | '"' :: t =>
      match jsonParseString fuel t with
      | none => none
      | some (k, rest) =>
        match jsonSkipWs rest with
        | ':' :: t2 =>
          match jsonParseVal fuel t2 with
          | none => none
          | some (v, rest2) =>
            match jsonSkipWs rest2 with
            | ',' :: t3 =>
              (jsonParseObjItems fuel t3).map (fun r => (objPutIfAbsent r.1 ⟨k⟩ v, r.2))
            | '\x7d' :: t3 => some ([(⟨k⟩, v)], t3)
            | _ => none
        | _ => none
    | _ => none

end

/-- `json.Unmarshal` of one line into a decoded value: `none` models a decode
error (the whole input must be one valid JSON value). -/
def jsonDecode (s : String) : Option Json :=
  match jsonParseVal (4 * s.data.length + 16) s.data with
  | some (j, rest) => if (jsonSkipWs rest).isEmpty then some j else none
  | none => none

/-- One candidate path walked through nested objects (`firstByPath`'s inner
loop): every segment must exist; the reached value (possibly nil) is
returned. -/
def resolvePath : Json → List String → Option Json
  | cur, [] => some cur
  | .obj m, seg :: rest =>
    match objGet m seg with
    | some v => resolvePath v rest
    | none => none
  | _, _ :: _ => none

/-- `firstByPath` (parser.go): the value of the first candidate path all of
whose segments resolve, nil when none does.  A resolved nil value wins over
later candidates, exactly as in the source. -/
def firstByPath (o : List (String × Json)) : List (List String) → Json
  | [] => .null
  | p :: ps =>
    match resolvePath (.obj o) p with
    | some v => v
    | none => firstByPath o ps

def lookupRendered (rendered : List (String × String)) (k : String) : Option String :=
  (rendered.find? (fun e => e.1 = k)).map (·.2)

/-- The key probe of `coerceText` on an object: first key whose coerced value
is non-empty (a missing key coerces to the empty string and is skipped). -/
def probeRendered (rendered : List (String × String)) : List String → String
  | [] => ""
  | k :: ks =>
    match lookupRendered rendered k with
    | some s => if s ≠ "" then s else probeRendered rendered ks
    | none => probeRendered rendered ks

mutual

/-- `coerceText` (parser.go): recursive coercion of an arbitrary decoded
value to text — strings trimmed, arrays joined by newlines dropping empty
elements, objects probed for well-known keys falling back to their compact
JSON dump. -/
def coerceText : Json → String
  | .null => ""
  | .str s => trimSpace s
  | .num n => intToStr n
  | .bool b => if b then "true" else "false"
  | .arr items => trimSpace (joinStr "\n" (coerceList items))
  | .obj entries =>
    let s := probeRendered (coerceEntries entries)
      ["text", "content", "input", "output", "result", "message", "arguments"]
    if s = "" then goJsonMarshal (.obj entries) else s

def coerceList : List Json → List String
  | [] => []
  | x :: xs =>
    let s := coerceText x
    if s = "" then coerceList xs else s :: coerceList xs

def coerceEntries : List (String × Json) → List (String × String)
  | [] => []
  | (k, v) :: rest => (k, coerceText v) :: coerceEntries rest

end

/-- `normalizeRole` (parser.go). -/
def normalizeRole (role0 : String) : String :=
  let role := toLower (trimSpace role0)
  if role = "user" || role = "assistant" || role = "tool" || role = "system" || role = "event" then
    role
  else if role = "" then ""
  else if containsSub role "tool" then "tool"
  else role

def parse2Digits : List Char → Option (Nat × List Char)
  | a :: b :: rest =>
    match hexVal a, hexVal b with
    | some x, some y => if x ≤ 9 && y ≤ 9 then some (x * 10 + y, rest) else none
    | _, _ => none
  | _ => none

def parse4Digits (l : List Char) : Option (Nat × List Char) :=
  match parse2Digits l with
  | some (hi, rest) =>
    match parse2Digits rest with
    | some (lo, rest2) => some (hi * 100 + lo, rest2)
    | none => none
  | none => none

def isLeapYear (y : Int) : Bool :=
  y % 4 = 0 && (y % 100 ≠ 0 || y % 400 = 0)

def daysInMonth (y : Int) (m : Nat) : Nat :=
  if m = 2 then (if isLeapYear y then 29 else 28)
  else if m = 4 || m = 6 || m = 9 || m = 11 then 30
  else 31

/-- Days since 1970-01-01 of a civil date (standard civil-from-days inverse,
as used by time packages). -/
def daysFromCivil (y : Int) (m d : Int) : Int :=
  let y1 := if m ≤ 2 then y - 1 else y
  let era := (if 0 ≤ y1 then y1 else y1 - 399) / 400
  let yoe := y1 - era * 400
  let mp := (m + 9) % 12
  let doy := (153 * mp + 2) / 5 + d - 1
  let doe := yoe * 365 + yoe / 4 - yoe / 100 + doy
  era * 146097 + doe - 719468

def dropFracSeconds (l : List Char) : Option (List Char) :=
  match l with
  | '.' :: rest =>
    let ds := rest.takeWhile (fun c => 48 ≤ c.toNat && c.toNat ≤ 57)
    if ds.isEmpty then none else some (rest.drop ds.length)
  | _ => some l

def parseTsZone : List Char → Option (Int × List Char)
  | 'Z' :: rest => some (0, rest)
  | '+' :: rest =>
    match parse2Digits rest with
    | some (hh, ':' :: r2) =>
      match parse2Digits r2 with
      | some (mm, r3) =>
        if hh ≤ 23 && mm ≤ 59 then some (((hh * 60 + mm) * 60 : Int), r3) else none
      | none => none
    | _ => none
  | '-' :: rest =>
    match parse2Digits rest with
    | some (hh, ':' :: r2) =>
      match parse2Digits r2 with
      | some (mm, r3) =>
        if hh ≤ 23 && mm ≤ 59 then some ((-((hh * 60 + mm) * 60) : Int), r3) else none
      | none => none
    | _ => none
  | _ => none

/-- `time.Parse` with the layouts the parser tries: `RFC3339Nano` / `RFC3339`
(separator `T`, mandatory zone, optional fractional seconds) and
`"2006-01-02 15:04:05"` (separator space, no zone, read as UTC).  The whole
input must be consumed; fields are range-checked as Go does.  `Unix()`
truncates the fractional seconds away. -/
def parseTimeLayout (sep : Char) (requireZone : Bool) (s : String) : Option Int :=
  match parse4Digits s.data with
  | some (y, '-' :: r1) =>
    match parse2Digits r1 with
    | some (mo, '-' :: r2) =>
      match parse2Digits r2 with
      | some (d, sepc :: r3) =>
        if sepc = sep then
          match parse2Digits r3 with
          | some (hh, ':' :: r4) =>
            match parse2Digits r4 with
            | some (mi, ':' :: r5) =>
              match parse2Digits r5 with
              | some (ss, r6) =>
                match dropFracSeconds r6 with
                | some r7 =>
                  let valid := 1 ≤ mo && mo ≤ 12 && 1 ≤ d && d ≤ daysInMonth y mo &&
                    hh ≤ 23 && mi ≤ 59 && ss ≤ 59
                  if valid then
                    if requireZone then
                      match parseTsZone r7 with
                      | some (off, []) =>
                        some (daysFromCivil y mo d * 86400 +
                          (hh * 3600 + mi * 60 + ss : Int) - off)
                      | _ => none
                    else
                      match r7 with
                      | [] => some (daysFromCivil y mo d * 86400 +
                          (hh * 3600 + mi * 60 + ss : Int))
                      | _ => none
                  else none
                | none => none
              | _ => none
            | _ => none
          | _ => none
        else none
      | _ => none
    | _ => none
  | _ => none

def adjustEpoch (x : Int) : Int :=
  if x > 1000000000000 then x / 1000 else x

/-- `parseUnix` (parser.go): integral numbers are epoch seconds (milliseconds
above 10^12), numeric strings likewise, then the RFC3339 layouts, then the
`"2006-01-02 15:04:05"` layout; every other shape yields nil. -/
def parseUnix : Json → Option Int
  | .num n => some (adjustEpoch n)
  | .str t0 =>
    let t := trimSpace t0
    if t = "" then none
    else
      match parseIntStr t with
      | some i => some (adjustEpoch i)
      | none =>
        match parseTimeLayout 'T' true t with
        | some ts => some ts
        | none => parseTimeLayout ' ' false t
  | _ => none

/-- `filepath.ToSlash`: path separators normalized to forward slashes. -/
def toSlash (p : String) : String :=
  replaceAllStr p '\\' "/"

/-- `filepath.Clean` on slash-separated paths. -/
def goClean (p : String) : String :=
  let rooted := hasPrefixStr p "/"
  let step := fun (acc : List String) (c : String) =>
    if c = "" || c = "." then acc
    else if c = ".." then
      match acc with
      | [] => if rooted then [] else [".."]
      | x :: rest => if x = ".." then ".." :: acc else rest
    else c :: acc
  let comps := ((splitOnStr p '/').foldl step []).reverse
  let body := joinStr "/" comps
  if rooted then (if body = "" then "/" else "/" ++ body)
  else (if body = "" then "." else body)

/-- `filepath.Base` on slash-separated paths. -/
def goBase (p : String) : String :=
  if p = "" then "."
  else
    let r := p.data.reverse.dropWhile (fun c => c = '/')
    if r.isEmpty then "/"
    else ⟨(r.takeWhile (fun c => c ≠ '/')).reverse⟩

/-- `filepath.Dir` on slash-separated paths: everything up to the final
element, cleaned. -/
def goDir (p : String) : String :=
  goClean ⟨(p.data.reverse.dropWhile (fun c => c ≠ '/')).reverse⟩

/-- `filepath.Join` of two elements on slash-separated paths. -/
def joinPath (a b : String) : String :=
  if a = "" then goClean b
  else if b = "" then goClean a
  else goClean (a ++ "/" ++ b)

def isHexDashChar (c : Char) : Bool :=
  (48 ≤ c.toNat && c.toNat ≤ 57) || (97 ≤ c.toNat && c.toNat ≤ 102) ||
  (65 ≤ c.toNat && c.toNat ≤ 70) || c = '-'

def matchRolloutAt (l : List Char) : Option String :=
  if "sessions/".data.isPrefixOf l then
    let rest := l.drop 9
    let comp := rest.takeWhile (fun c => c ≠ '/')
    let after := rest.drop comp.length
    if comp.isEmpty then none
    else if after.take 1 = ['/'] then
      let r3 := after.drop 1
      if "rollout-".data.isPrefixOf r3 &&
          ".jsonl".data.reverse.isPrefixOf (r3.drop 8).reverse then
        some ⟨comp⟩
      else none
    else none
  else none

def rolloutPathCaptureAux : List Char → Option String
  | [] => none
  | c :: t =>
    match matchRolloutAt (c :: t) with
    | some cap => some cap
    | none => rolloutPathCaptureAux t

/-- `rolloutPathRe` = `sessions[/\\]([^/\\]+)[/\\]rollout-.*\.jsonl$`:
leftmost match of a `sessions/<component>/rollout-…jsonl` tail, capturing the
component (paths are slash-normalized before matching). -/
def rolloutPathCapture (s : String) : Option String :=
  rolloutPathCaptureAux s.data

/-- `rolloutFilenameSessionIDRe` = `rollout-.*-([0-9a-fA-F-]{36})\.jsonl$`:
the capture sits in the fixed window of 36 hex-or-dash characters before the
`.jsonl` suffix, preceded by a dash, with `rollout-` occurring early enough
for the dash to follow it. -/
def rolloutFilenameCapture (base : String) : Option String :=
  let l := base.data
  let n := l.length
  if 51 ≤ n &&
      ".jsonl".data.reverse.isPrefixOf l.reverse &&
      (l.drop (n - 43)).take 1 = ['-'] &&
      ((l.drop (n - 42)).take 36).all isHexDashChar &&
      containsSubAux "rollout-".data (l.take (n - 43)) then
    some ⟨(l.drop (n - 42)).take 36⟩
  else none

/-- `sessionIDFromPath` (parser.go): rollout-path capture, then a session id
parsed from the filename, then `"history"` for history files, then the parent
directory name, then the `"unknown-session"` fallback. -/
def sessionIDFromPath (sourcePath : String) : String :=
  let norm := toSlash sourcePath
  match rolloutPathCapture norm with
  | some cap => cap
  | none =>
    match rolloutFilenameCapture (goBase norm) with
    | some cap => cap
    | none =>
      if hasSuffixStr norm "/history.jsonl" then "history"
      else
        let base := goBase (goDir sourcePath)
        if base ≠ "." && base ≠ "/" then base else "unknown-session"

/-- The per-path probe loop shared by `extractSessionID` and `extractWorkdir`:
first candidate path whose value renders to a non-empty string. -/
def probeStringPaths (o : List (String × Json)) : List (List String) → String
  | [] => ""
  | p :: ps =>
    let s := asString (firstByPath o [p])
    if s ≠ "" then s else probeStringPaths o ps

/-- `extractSessionID` (parser.go). -/
def extractSessionID (o : List (String × Json)) (sourcePath : String) : String :=
  let s := probeStringPaths o
    [["session_id"], ["sessionId"], ["conversation_id"], ["conversationId"],
     ["session", "id"], ["data", "session_id"], ["payload", "session_id"],
     ["payload", "sessionId"], ["payload", "conversation_id"],
     ["payload", "conversationId"], ["payload", "id"]]
  if s ≠ "" then s else sessionIDFromPath sourcePath

/-- `extractWorkdir` (parser.go). -/
def extractWorkdir (o : List (String × Json)) : String :=
  probeStringPaths o
    [["workdir"], ["cwd"], ["payload", "cwd"], ["payload", "workdir"],
     ["workspace"], ["workspace_path"], ["project", "path"], ["data", "workdir"]]

def probeTimestampPaths (o : List (String × Json)) : List (List String) → Option Int
  | [] => none
  | p :: ps =>
    match parseUnix (firstByPath o [p]) with
    | some ts => some ts
    | none => probeTimestampPaths o ps

/-- `extractTimestamp` (parser.go). -/
def extractTimestamp (o : List (String × Json)) : Option Int :=
  probeTimestampPaths o
    [["timestamp"], ["ts"], ["time"], ["payload", "timestamp"], ["payload", "time"],
     ["created_at"], ["createdAt"], ["message", "timestamp"], ["data", "timestamp"]]

def probeContentPaths (o : List (String × Json)) : List (List String) → String
  | [] => ""
  | p :: ps =>
    let s := coerceText (firstByPath o [p])
    if s ≠ "" then s else probeContentPaths o ps

/-- `extractContent` (parser.go): the ordered main candidate paths, then the
late `tool` / `data` / `message` fallbacks. -/
def extractContent (o : List (String × Json)) : String :=
  let s := probeContentPaths o
    [["content"], ["payload", "content"], ["message", "content"],
     ["payload", "message", "content"], ["data", "content"], ["text"],
     ["payload", "text"], ["output"], ["payload", "output"], ["input"],
     ["payload", "input"], ["message", "text"], ["payload", "message", "text"],
     ["delta", "content"], ["payload", "delta", "content"], ["payload", "message"],
     ["payload", "arguments"], ["payload", "reason"]]
  if s ≠ "" then s
  else probeContentPaths o [["tool"], ["data"], ["message"]]

/-- `parsedEvent` (parser.go): fields SessionID, TS, Role, Content, Type,
Workdir of the source, in source order. -/
structure ParsedEvent where
  sessionID : String
  ts : Option Int
  role : String
  content : String
  typ : String
  workdir : String
deriving DecidableEq

/-- The effective type of a Family-A line: the payload type unwraps the
`response_item` / `event_msg` envelopes, a missing root type defers to the
payload type, and an empty result becomes `"unknown"`. -/
def effectiveType (o : List (String × Json)) : String :=
  let rootType := asString (firstByPath o [["type"]])
  let payloadType := asString (firstByPath o [["payload", "type"]])
  let typ1 :=
    if rootType = "response_item" || rootType = "event_msg" then
      (if payloadType ≠ "" then payloadType else rootType)
    else if rootType = "" && payloadType ≠ "" then payloadType
    else rootType
  let typ2 := if typ1 = "event_msg" && payloadType ≠ "" then payloadType else typ1
  if typ2 = "" then "unknown" else typ2

/-- The role candidate lookup of `parseJSONLLine` (one `firstByPath` call over
all five candidate paths, normalized). -/
def lineRole (o : List (String × Json)) : String :=
  normalizeRole (asString (firstByPath o
    [["role"], ["payload", "role"], ["message", "role"],
     ["payload", "message", "role"], ["data", "role"]]))

/-- Body of `parseJSONLLine` (parser.go) on a decoded object. -/
def parseJSONLLineObj (o : List (String × Json)) (sourcePath : String) : List ParsedEvent :=
  let typ := effectiveType o
  let sessionID := extractSessionID o sourcePath
  let timestamp := extractTimestamp o
  let workdir := extractWorkdir o
  let role := lineRole o
  let content := extractContent o
  if typ = "message" then
    let role := if role = "" then "event" else role
    if content = "" then []
    else [⟨sessionID, timestamp, role, content, "message", workdir⟩]
  else if typ = "user_message" then
    if content = "" then []
    else [⟨sessionID, timestamp, "user", content, "user_message", workdir⟩]
  else if content = "" then []
  else
    let role :=
      if role = "" then
        (if containsSub (toLower typ) "tool" then "tool" else "event")
      else role
    [⟨sessionID, timestamp, role, content, typ, workdir⟩]

/-- `parseJSONLLine` (parser.go), Family A: a JSON-decode failure (including a
non-object line, which `json.Unmarshal` into a map rejects) is an error; the
caller skips such lines. -/
def parseJSONLLine (line : String) (sourcePath : String) : Except Unit (List ParsedEvent) :=
  match jsonDecode line with
  | some (Json.obj o) => .ok (parseJSONLLineObj o sourcePath)
  | _ => .error ()

/-- `extractToolResultContent` (Family-B parser): string content trimmed, an
array of blocks joined by their (untrimmed-lookup) `text` fields, anything
else empty. -/
def extractToolResultContent (block : List (String × Json)) : String :=
  match objGet block "content" with
  | some (Json.str s) => trimSpace s
  | some (Json.arr items) =>
    let parts := items.filterMap (fun item =>
      match item with
      | Json.obj m =>
        let text := asString (firstByPath m [["text"]])
        if text ≠ "" then some text else none
      | _ => none)
    trimSpace (joinStr "\n" parts)
  | _ => ""

/-- `formatToolUse` (Family-B parser): `"<name>()"` without a non-empty input
object, otherwise the name with the compact JSON of the input, the JSON cut
to 497 characters plus `"..."` when longer than 500. -/
def formatToolUse (name : String) (input : Json) : String :=
  if name = "" then ""
  else
    match input with
    | Json.obj inputMap =>
      if inputMap.isEmpty then name ++ "()"
      else
        let s := goJsonMarshal (Json.obj inputMap)
        let s := if 500 < strLen s then takeStr s 497 ++ "..." else s
        name ++ ": " ++ s
    | _ => name ++ "()"

/-- `claudeSessionIDFromPath` (Family-B parser): the 36 hex-or-dash
characters before `.jsonl` at the end of the base name
(`([0-9a-fA-F-]{36})\.jsonl$`), else `"unknown-session"`. -/
def claudeSessionIDFromPath (path : String) : String :=
  let l := (goBase path).data
  let n := l.length
  if 42 ≤ n &&
      ".jsonl".data.reverse.isPrefixOf l.reverse &&
      ((l.drop (n - 42)).take 36).all isHexDashChar then
    ⟨(l.drop (n - 42)).take 36⟩
  else "unknown-session"

/-- `workdirFromClaudePath` (Family-B parser): decode the dash-encoded parent
directory name back into a path. -/
def workdirFromClaudePath (path : String) : String :=
  let dir := goBase (goDir path)
  if dir = "" || dir = "." || dir = "/" || dir = "projects" then ""
  else if ¬ hasPrefixStr dir "-" then ""
  else
    let decoded := replaceAllStr dir '-' "/"
    if decoded = "" || decoded = "/" then ""
    else goClean decoded

/-- `parseClaudeUserMessage` (Family-B parser). -/
def parseClaudeUserMessage (o : List (String × Json)) (sessionID : String)
    (ts : Option Int) (workdir : String) : List ParsedEvent :=
  match objGet o "message" with
  | some (Json.obj msg) =>
    match objGet msg "content" with
    | some (Json.str s0) =>
      let s := trimSpace s0
      if s = "" then []
      else [⟨sessionID, ts, "user", s, "message", workdir⟩]
    | some (Json.arr arr) =>
      if arr.isEmpty then []
      else
        arr.filterMap (fun item =>
          match item with
          | Json.obj block =>
            let blockType := asString (firstByPath block [["type"]])
            if blockType = "tool_result" then
              let text := extractToolResultContent block
              if text = "" then none
              else some ⟨sessionID, ts, "tool", text, "tool_result", workdir⟩
            else if blockType = "text" then
              let text := trimSpace (asString (firstByPath block [["text"]]))
              if text = "" then none
              else some ⟨sessionID, ts, "user", text, "message", workdir⟩
            else none
          | _ => none)
    | _ => []
  | _ => []

/-- The per-block step of the assistant loop: text blocks accumulate into
`textParts`, tool_use blocks with renderable content append an event. -/
def claudeAssistantStep (sessionID : String) (ts : Option Int) (workdir : String)
    (acc : List ParsedEvent × List String) (item : Json) :
    List ParsedEvent × List String :=
  match item with
  | Json.obj block =>
    let blockType := asString (firstByPath block [["type"]])
    if blockType = "text" then
      let text := trimSpace (asString (firstByPath block [["text"]]))
      if text ≠ "" then (acc.1, acc.2 ++ [text]) else acc
    else if blockType = "tool_use" then
      let name := asString (firstByPath block [["name"]])
      let input := (objGet block "input").getD Json.null
      let content := formatToolUse name input
      if content ≠ "" then
        (acc.1 ++ [⟨sessionID, ts, "tool", content, "tool_use", workdir⟩], acc.2)
      else acc
    else acc
  | _ => acc

/-- `parseClaudeAssistantMessage` (Family-B parser): consecutive text blocks
are combined (blank-line separated) into one assistant event prepended to the
tool_use events collected along the array. -/
def parseClaudeAssistantMessage (o : List (String × Json)) (sessionID : String)
    (ts : Option Int) (workdir : String) : List ParsedEvent :=
  match objGet o "message" with
  | some (Json.obj msg) =>
    match objGet msg "content" with
    | some (Json.arr arr) =>
      if arr.isEmpty then []
      else
        let acc := arr.foldl (claudeAssistantStep sessionID ts workdir) ([], [])
        let combined := trimSpace (joinStr "\n\n" acc.2)
        if combined ≠ "" then
          ⟨sessionID, ts, "assistant", combined, "message", workdir⟩ :: acc.1
        else acc.1
    | _ => []
  | _ => []

/-- `parseClaudeSystemMessage` (Family-B parser). -/
def parseClaudeSystemMessage (o : List (String × Json)) (sessionID : String)
    (ts : Option Int) (workdir : String) : List ParsedEvent :=
  let content := asString (firstByPath o [["content"]])
  if content = "" then []
  else [⟨sessionID, ts, "system", content, "system", workdir⟩]

/-- `parseClaudeTimestamp` (Family-B parser). -/
def parseClaudeTimestamp (o : List (String × Json)) : Option Int :=
  match firstByPath o [["timestamp"]] with
  | Json.null => none
  | raw => parseUnix raw

/-- Body of `parseClaudeJSONLLine` on a decoded object. -/
def parseClaudeJSONLLineObj (o : List (String × Json)) (sourcePath : String) :
    List ParsedEvent :=
  let typ := asString (firstByPath o [["type"]])
  if typ = "progress" || typ = "file-history-snapshot" then []
  else
    let sessionID0 := asString (firstByPath o [["sessionId"]])
    let sessionID := if sessionID0 = "" then claudeSessionIDFromPath sourcePath else sessionID0
    let timestamp := parseClaudeTimestamp o
    let workdir := asString (firstByPath o [["cwd"]])
    if typ = "user" then parseClaudeUserMessage o sessionID timestamp workdir
    else if typ = "assistant" then parseClaudeAssistantMessage o sessionID timestamp workdir
    else if typ = "system" then parseClaudeSystemMessage o sessionID timestamp workdir
    else []

/-- `parseClaudeJSONLLine` (Family-B parser): decode failures (including
non-object lines) are errors which the caller skips. -/
def parseClaudeJSONLLine (line : String) (sourcePath : String) :
    Except Unit (List ParsedEvent) :=
  match jsonDecode line with
  | some (Json.obj o) => .ok (parseClaudeJSONLLineObj o sourcePath)
  | _ => .error ()

/-- A file of the modelled filesystem: absolute slash-separated path,
modification time (unix seconds) and contents.  `len(content)` is the file
size. -/
structure FsFile where
  path : String
  mtime : Int
  content : String
deriving DecidableEq

/-- The filesystem: the discoverable regular files. -/
abbrev Fs := List FsFile

/-- `sourceFile` (scanner). -/
structure SourceFile where
  Path : String
  Source : String
deriving DecidableEq

/-- `os.Stat` restricted to the modelled regular files. -/
def statFs (fs : Fs) (p : String) : Option FsFile :=
  fs.find? (fun f => f.path = p)

def isUnderDir (root p : String) : Bool :=
  hasPrefixStr p (root ++ "/")

def relComponents (root p : String) : List String :=
  splitOnStr (dropStr p (strLen root + 1)) '/'

/-- `discoverCodexSources`: every file under `<codexHome>/sessions` whose
lower-cased base name matches `rollout-*.jsonl`, sorted by path; when none,
the single `<codexHome>/history.jsonl` file when present. -/
def discoverCodexSources (fs : Fs) (codexHome : String) : List SourceFile :=
  let sessionsRoot := joinPath codexHome "sessions"
  let rollouts := (fs.filter (fun f =>
      (f.path = sessionsRoot || isUnderDir sessionsRoot f.path) &&
      hasPrefixStr (toLower (goBase f.path)) "rollout-" &&
      hasSuffixStr (toLower (goBase f.path)) ".jsonl")).map
    (fun f => SourceFile.mk f.path "rollout")
  let sorted := sortLeBy (fun a b => strLe a.Path b.Path) rollouts
  if ¬ sorted.isEmpty then sorted
  else
    let historyPath := joinPath codexHome "history.jsonl"
    match statFs fs historyPath with
    | some _ => [⟨historyPath, "history"⟩]
    | none => []

/-- `discoverClaudeSources`: every `*.jsonl` file under
`<claudeHome>/projects`, never descending into directories named `subagents`
or `memory`, sorted by path. -/
def discoverClaudeSources (fs : Fs) (claudeHome : String) : List SourceFile :=
  let projectsRoot := joinPath claudeHome "projects"
  let files := fs.filter (fun f =>
    (f.path = projectsRoot || isUnderDir projectsRoot f.path) &&
    hasSuffixStr (toLower (goBase f.path)) ".jsonl" &&
    ¬ ((relComponents projectsRoot f.path).dropLast.any
        (fun c => c = "subagents" || c = "memory")))
  sortLeBy (fun a b => strLe a.Path b.Path) (files.map (fun f => SourceFile.mk f.path "claude"))

/-- `discoverAllSources`: the codex list followed by the claude list. -/
def discoverAllSources (fs : Fs) (codexHome claudeHome : String) : List SourceFile :=
  discoverCodexSources fs codexHome ++ discoverClaudeSources fs claudeHome

/-- `Message` (types.go): one persisted row of the `messages` table; `ts` nil
models the SQL NULL. -/
structure Message where
  id : Int
  sessionID : String
  ts : Option Int
  role : String
  content : String
  typ : String
  source : String
  sourcePath : String
  workdir : String
deriving DecidableEq

/-- `TranscriptToggles` (types.go). -/
structure TranscriptToggles where
  IncludeTools : Bool
  IncludeAborted : Bool
  IncludeEvents : Bool
deriving DecidableEq

/-- `isBoilerplateUserContent` (transcript.go). -/
def isBoilerplateUserContent (content : String) : Bool :=
  let trimmed := trimSpace content
  if trimmed = "" then false
  else
    let lower := toLower trimmed
    if hasPrefixStr lower "<turn_aborted>" && containsSub lower "</turn_aborted>" then true
    else if hasPrefixStr lower "<environment_context>" then true
    else if containsSub lower "<environment_context>" && containsSub lower "<cwd>" then true
    else false

/-- `isNonConversationalPreviewContent` (transcript.go). -/
def isNonConversationalPreviewContent (content : String) : Bool :=
  let trimmed := trimSpace content
  if trimmed = "" then true
  else if isBoilerplateUserContent trimmed then true
  else hasPrefixStr (toLower trimmed) "# agents.md instructions for "

/-- `isBoilerplateUserMessage` (transcript.go). -/
def isBoilerplateUserMessage (m : Message) : Bool :=
  if toLower (trimSpace m.role) ≠ "user" then false
  else isBoilerplateUserContent m.content

/-- `isToolMessage` (transcript.go). -/
def isToolMessage (m : Message) : Bool :=
  containsSub (toLower m.role) "tool" || containsSub (toLower m.typ) "tool"

/-- `normalizeContent` (transcript.go). -/
def normalizeContent (s : String) : String :=
  joinStr " " (fieldsStr (trimSpace (toLower s)))

/-- The first pass of `FilterMessages`: the normalized contents of canonical
non-boilerplate user messages (the `canonicalUsers` set). -/
def canonicalUserSet (messages : List Message) : List String :=
  messages.filterMap (fun m =>
    if m.typ = "message" && m.role = "user" then
      if isBoilerplateUserContent m.content then none
      else
        let n := normalizeContent m.content
        if n ≠ "" then some n else none
    else none)

/-- The per-message decision of the second pass of `FilterMessages`, in the
branch order of the source. -/
def keepMessage (canon : List String) (t : TranscriptToggles) (m : Message) : Bool :=
  if trimSpace m.content = "" then false
  else if isBoilerplateUserMessage m then false
  else if m.typ = "message" && (m.role = "user" || m.role = "assistant") then true
  else if m.typ = "user_message" then
    if ¬ t.IncludeAborted then false
    else if canon.contains (normalizeContent m.content) then false
    else true
  else if isToolMessage m then t.IncludeTools
  else t.IncludeEvents

/-- `FilterMessages` (transcript.go): each message kept or dropped
independently, given the canonical-content set of the whole input. -/
def FilterMessages (messages : List Message) (toggles : TranscriptToggles) : List Message :=
  messages.filter (keepMessage (canonicalUserSet messages) toggles)

/-- `Session` (types.go). -/
structure Session where
  ID : String
  Source : String
  LastActivityTS : Int
  MessageCount : Int
  Workdir : String
  Preview : String
deriving DecidableEq

def searchTrimCutset : List Char :=
  [Char.ofNat 96, '"', Char.ofNat 39, '.', ',', ':', ';', '!', '?',
   '(', ')', '[', ']', Char.ofNat 123, Char.ofNat 125, '<', '>', '|']

/-- `tokenizeSearchTerms` (indexer.go): whitespace fields of the lower-cased
query, surrounding punctuation trimmed, empties dropped. -/
def tokenizeSearchTerms (raw : String) : List String :=
  (fieldsStr (toLower (trimSpace raw))).filterMap (fun p0 =>
    let p := trimCutset (trimSpace p0) searchTrimCutset
    if p = "" then none else some p)

/-- `buildFTSQuery` (indexer.go). -/
def buildFTSQuery (raw : String) : String :=
  let parts := tokenizeSearchTerms raw
  if parts.isEmpty then ""
  else
    let quoted := parts.filterMap (fun p0 =>
      let p := trimSpace p0
      if p = "" then none
      else some ("\"" ++ replaceAllStr p '"' "" ++ "\"*"))
    joinStr " AND " quoted

/-- `searchRowsFTS` (indexer.go): the database full-text query is the
environment, modelled as a function of the built FTS query string. -/
def searchRowsFTS (query : String) (dbFts : String → Except String (List Session)) :
    Except String (List Session) :=
  let ftsQuery := buildFTSQuery query
  if ftsQuery = "" then .error "empty fts query"
  else dbFts ftsQuery

/-- `searchRowsLike` (indexer.go): the fallback substring query is the
environment, modelled as a function of the LIKE terms. -/
def searchRowsLike (query : String) (dbLike : List String → Except String (List Session)) :
    Except String (List Session) :=
  let terms0 := tokenizeSearchTerms query
  let terms1 := if terms0.isEmpty then [toLower (trimSpace query)] else terms0
  let terms := if terms1.isEmpty || terms1.headD "" = "" then [""] else terms1
  dbLike terms

/-- `searchRows` (indexer.go): full-text first when enabled, transparently
falling back to the LIKE path on failure, an error only when both fail. -/
def searchRows (ftsEnabled : Bool) (query : String)
    (dbFts : String → Except String (List Session))
    (dbLike : List String → Except String (List Session)) :
    Except String (List Session) :=
  if ftsEnabled then
    match searchRowsFTS query dbFts with
    | .ok rows => .ok rows
    | .error e =>
      match searchRowsLike query dbLike with
      | .ok rows => .ok rows
      | .error fbErr =>
        .error ("list sessions search (fts and fallback failed): fts=" ++ e ++
          ", fallback=" ++ fbErr)
  else searchRowsLike query dbLike

/-- `ListSessions` (indexer.go): default limit, trimmed query, the empty
query served by the plain listing, any other query by `searchRows`. -/
def ListSessions (ftsEnabled : Bool) (query0 : String) (limit0 : Int)
    (dbAll : Int → Except String (List Session))
    (dbFts : String → Except String (List Session))
    (dbLike : List String → Except String (List Session)) :
    Except String (List Session) :=
  let limit := if limit0 ≤ 0 then 200 else limit0
  let query := trimSpace query0
  if query = "" then dbAll limit
  else searchRows ftsEnabled query dbFts dbLike

/-- One row of the `messages_fts` table, mirroring a message row. -/
structure FtsRow where
  rowid : Int
  sessionID : String
  role : String
  content : String
deriving DecidableEq

/-- One row of the `ingested_files` watermark table. -/
structure IngestedFile where
  path : String
  mtime : Int
  size : Int
  offset : Int
  source : String
deriving DecidableEq

/-- The persisted database: the four tables and the AUTOINCREMENT counter of
`messages.id`.  Message lists are kept in insertion (= id) order by the
operations below. -/
structure DbState where
  messages : List Message
  fts : List FtsRow
  ingested : List IngestedFile
  sessions : List Session
  nextId : Int
deriving DecidableEq

def lookupWm (l : List IngestedFile) (p : String) : Option IngestedFile :=
  l.find? (fun w => w.path = p)

/-- The `ON CONFLICT(path) DO UPDATE` upsert of a watermark row. -/
def upsertWm : List IngestedFile → IngestedFile → List IngestedFile
  | [], w => [w]
  | x :: xs, w => if x.path = w.path then w :: xs else x :: upsertWm xs w

/-- The deletion pair run for one path: FTS rows whose rowid is the id of a
message of the path first, then the messages of the path. -/
def deleteForPath (st : DbState) (p : String) : DbState :=
  { st with
    fts := st.fts.filter (fun r =>
      ¬ st.messages.any (fun m => m.id == r.rowid && m.sourcePath == p)),
    messages := st.messages.filter (fun m => ¬ m.sourcePath == p) }

/-- The body of the ingest loop for one parsed event: empty-content events
dropped, empty session ids replaced by the path-derived id, one message row
and its FTS mirror appended. -/
def insertEvent (src : SourceFile) (evt : ParsedEvent) (st : DbState) : DbState :=
  if trimSpace evt.content = "" then st
  else
    let sessionID0 := trimSpace evt.sessionID
    let sessionID := if sessionID0 = "" then sessionIDFromPath src.Path else sessionID0
    { st with
      messages := st.messages ++
        [⟨st.nextId, sessionID, evt.ts, evt.role, evt.content, evt.typ,
          src.Source, src.Path, evt.workdir⟩],
      fts := st.fts ++ [⟨st.nextId, sessionID, evt.role, evt.content⟩],
      nextId := st.nextId + 1 }

/-- The per-line parser selection of the ingest loop. -/
def parseLineFor (source : String) (line : String) (path : String) :
    Except Unit (List ParsedEvent) :=
  if source = "claude" then parseClaudeJSONLLine line path else parseJSONLLine line path

/-- One line of the scan loop: parse errors skip the line. -/
def ingestLine (src : SourceFile) (st : DbState) (line : String) : DbState :=
  match parseLineFor src.Source line src.Path with
  | .error _ => st
  | .ok evts => evts.foldl (fun s e => insertEvent src e s) st

def fileSize (f : FsFile) : Int :=
  (strLen f.content : Int)

/-- The scan loop of `ingestFile`: the file content from the seek offset,
split into lines, each parsed and its events inserted. -/
def scanFrom (src : SourceFile) (f : FsFile) (offset : Int) (st : DbState) : DbState :=
  (goScanLines (dropStr f.content offset.toNat)).foldl (ingestLine src) st

/-- `ingestFile` (indexer.go): a vanished file ingests nothing; a known
watermark decides reset-and-delete versus resume; the scan processes the
content from the chosen offset; the watermark is upserted with
`offset = size = len(content)` and the current mtime. -/
def ingestFile (fs : Fs) (st : DbState) (src : SourceFile) : DbState :=
  match statFs fs src.Path with
  | none => st
  | some f =>
    let metaOpt := lookupWm st.ingested src.Path
    let needsReset :=
      match metaOpt with
      | some meta =>
        decide (fileSize f < meta.offset) || decide (f.mtime < meta.mtime) ||
        (decide (f.mtime ≠ meta.mtime) && decide (fileSize f = meta.size))
      | none => false
    let offset : Int :=
      match metaOpt with
      | some meta => if needsReset then 0 else meta.offset
      | none => 0
    let st1 := if needsReset then deleteForPath st src.Path else st
    let st2 := scanFrom src f offset st1
    { st2 with ingested :=
        upsertWm st2.ingested ⟨src.Path, f.mtime, fileSize f, fileSize f, src.Source⟩ }

/-- One stale path of the pruning pass: its FTS rows, messages and watermark
row deleted. -/
def pruneOne (st : DbState) (p : String) : DbState :=
  let st1 := deleteForPath st p
  { st1 with ingested := st1.ingested.filter (fun w => ¬ w.path == p) }

/-- `pruneMissingSources` (indexer.go). -/
def pruneMissingSources (st : DbState) (srcs : List SourceFile) : DbState :=
  let keep := srcs.map (·.Path)
  let stale := (st.ingested.map (·.path)).filter (fun p => ¬ keep.contains p)
  if stale.isEmpty then st else stale.foldl pruneOne st

/-- The watermark shape a completed ingest leaves behind for a path: the
recorded offset equals the file size and the recorded mtime the file's
mtime (the resume conditions of `ingestFile` then all fail). -/
def wmMatchesFile (fs : Fs) (W : List IngestedFile) (p : String) : Prop :=
  ∃ w f, lookupWm W p = some w ∧ statFs fs p = some f ∧
    w.offset = fileSize f ∧ w.mtime = f.mtime

/-- `looksLikePath` (indexer.go). -/
def looksLikePath (s0 : String) : Bool :=
  let s := trimSpace s0
  hasPrefixStr s "/" || hasPrefixStr s "~/"

/-- `extractWorkdirFromContent` (indexer.go): a `<cwd>…</cwd>` pair located
case-insensitively, else the first path-looking token of a leading
`<environment_context>` block. -/
def extractWorkdirFromContent (content0 : String) : String :=
  let content := trimSpace content0
  if content = "" then ""
  else
    let lower := toLower content
    let fromCwd :=
      match indexOfStr lower "<cwd>" with
      | some start0 =>
        let start := start0 + 5
        match indexOfStr (dropStr lower start) "</cwd>" with
        | some endRel =>
          let wd := trimSpace (takeStr (dropStr content start) endRel)
          if looksLikePath wd then wd else ""
        | none => ""
      | none => ""
    if fromCwd ≠ "" then fromCwd
    else if hasPrefixStr lower "<environment_context>" then
      let inner1 := if hasPrefixStr content "<environment_context>" then dropStr content 21 else content
      let inner2 :=
        match indexOfStr (toLower inner1) "</environment_context>" with
        | some e => takeStr inner1 e
        | none => inner1
      ((fieldsStr inner2).find? (fun token => looksLikePath token)).getD ""
    else ""

def sessionRows (msgs : List Message) (sid : String) : List Message :=
  msgs.filter (fun m => m.sessionID == sid)

def sortById (rows : List Message) : List Message :=
  sortLeBy (fun a b => decide (a.id ≤ b.id)) rows

/-- `hasRealUserMessage` (indexer.go): some canonical user row of the session
has non-empty, conversational content. -/
def hasRealUserMessage (msgs : List Message) (sid : String) : Bool :=
  msgs.any (fun m => m.sessionID == sid && m.typ == "message" && m.role == "user" &&
    !(trimSpace m.content == "") && !(isNonConversationalPreviewContent m.content))

/-- `countConversationalMessages` (indexer.go): canonical rows with non-empty
trimmed content — assistants always, users only when conversational. -/
def countConversationalMessages (msgs : List Message) (sid : String) : Int :=
  ((msgs.filter (fun m => m.sessionID == sid && m.typ == "message" &&
      (m.role == "user" || m.role == "assistant"))).filter (fun m =>
    let c := trimSpace m.content
    !(c == "") &&
      (m.role == "assistant" || (m.role == "user" && !(isNonConversationalPreviewContent c))))).length

/-- `pickSessionPreview` (indexer.go): first conversational content among the
first 40 canonical user rows (id ascending), else among the last 40 user rows
(id descending), else empty. -/
def pickSessionPreview (msgs : List Message) (sid : String) : String :=
  let q1 := ((sortById ((sessionRows msgs sid).filter
      (fun m => m.role == "user" && m.typ == "message"))).take 40).map (·.content)
  match q1.find? (fun c => !(isNonConversationalPreviewContent c)) with
  | some c => c
  | none =>
    let q2 := (((sortById ((sessionRows msgs sid).filter
        (fun m => m.role == "user"))).reverse).take 40).map (·.content)
    ((q2.find? (fun c => !(isNonConversationalPreviewContent c)))).getD ""

/-- `trimPreview` (indexer.go). -/
def trimPreview (s0 : String) : String :=
  let s := trimSpace (replaceAllStr s0 '\n' " ")
  if strLen s ≤ 120 then s else takeStr s 117 ++ "..."

/-- `inferWorkdirFromSessionContent` (indexer.go): first extractable workdir
among the first 40 user rows by id. -/
def inferWorkdirFromSessionContent (msgs : List Message) (sid : String) : String :=
  let q := ((sortById ((sessionRows msgs sid).filter (fun m => m.role == "user"))).take 40).map
    (·.content)
  ((q.map extractWorkdirFromContent).find? (fun wd => !(wd == ""))).getD ""

/-- `computeSessionSummary` (indexer.go).  `LIMIT 1` without `ORDER BY` on
the source-path probe reads the first row in id order, the storage order. -/
def computeSessionSummary (msgs : List Message) (sid : String) : Session :=
  let rows := sessionRows msgs sid
  let byId := sortById rows
  let lastTs :=
    match rows.map (fun m => m.ts.getD 0) with
    | [] => 0
    | x :: xs => xs.foldl max x
  let source := ((byId.getLast?).map (·.source)).getD "unknown"
  let messageCount :=
    if hasRealUserMessage msgs sid then countConversationalMessages msgs sid else 0
  let wd1 := (((byId.filter (fun m => !(m.workdir == ""))).getLast?).map (·.workdir)).getD ""
  let wd2 := if wd1 = "" then inferWorkdirFromSessionContent msgs sid else wd1
  let wd3 :=
    if wd2 = "" && source = "claude" then
      match (byId.filter (fun m => !(m.sourcePath == ""))).head? with
      | some m => workdirFromClaudePath m.sourcePath
      | none => ""
    else wd2
  ⟨sid, source, lastTs, messageCount, wd3, trimPreview (pickSessionPreview msgs sid)⟩

def dedupAdj : List String → List String
  | [] => []
  | [a] => [a]
  | a :: b :: rest => if a = b then dedupAdj (b :: rest) else a :: dedupAdj (b :: rest)

/-- `SELECT DISTINCT session_id FROM messages ORDER BY session_id`. -/
def sortedUniqueStr (l : List String) : List String :=
  dedupAdj (sortLeBy strLe l)

/-- The session table recomputed from the message table (`refreshSessions`
deletes all rows and reinserts one summary per distinct session id, in
session-id order). -/
def sessionsOfMessages (msgs : List Message) : List Session :=
  (sortedUniqueStr (msgs.map (·.sessionID))).map (computeSessionSummary msgs)

def refreshSessions (st : DbState) : DbState :=
  { st with sessions := sessionsOfMessages st.messages }

/-- `BuildIndex` (indexer.go): discovery, pruning, the per-file ingest loop,
then the session refresh.  Cancellation and error aborts do not arise in the
pure model. -/
def BuildIndex (fs : Fs) (codexHome claudeHome : String) (st : DbState) : DbState :=
  let sources := discoverAllSources fs codexHome claudeHome
  let st1 := pruneMissingSources st sources
  if sources.isEmpty then refreshSessions st1
  else refreshSessions (sources.foldl (ingestFile fs) st1)

/-- Modelled from the spec sentence for the tool_use claim, amended: the
event a tool_use block yields — dropped for an empty name, otherwise
`"<name>()"` without a non-empty input object, else the name with the compact
input JSON cut to 497 characters plus a three-character ellipsis (500 in
total) when longer than 500. -/
def specToolUseEvent (sessionID : String) (ts : Option Int) (workdir : String)
    (item : Json) : Option ParsedEvent :=
  match item with
  | Json.obj block =>
    if asString (firstByPath block [["type"]]) = "tool_use" then
      let name := asString (firstByPath block [["name"]])
      if name = "" then none
      else
        let payload :=
          match (objGet block "input").getD Json.null with
          | Json.obj inputMap =>
            if inputMap.isEmpty then none else some (goJsonMarshal (Json.obj inputMap))
          | _ => none
        let content :=
          match payload with
          | none => name ++ "()"
          | some s => name ++ ": " ++ (if 500 < strLen s then takeStr s 497 ++ "..." else s)
        some ⟨sessionID, ts, "tool", content, "tool_use", workdir⟩
    else none
  | _ => none

/-! Concrete inputs used by counterexamples and witnesses. -/

/-- A Family-A line whose role field normalizes to a value outside the
documented role set. -/
def lineRoleCex : String :=
  "\x7b\"type\":\"message\",\"role\":\"weird\",\"content\":\"hi\"\x7d"

/-- A Family-A message line with a known role, for witnesses. -/
def lineMsgW : String :=
  "\x7b\"type\":\"message\",\"role\":\"user\",\"content\":\"hi\"\x7d"

/-- A Family-B assistant line holding exactly one tool_use block, whose name
is empty. -/
def lineToolUseCex : String :=
  "\x7b\"type\":\"assistant\",\"message\":\x7b\"content\":[\x7b\"type\":\"tool_use\",\"name\":\"\",\"input\":\x7b\x7d\x7d]\x7d\x7d"

/-- The decoded object of `lineToolUseCex`. -/
def objToolUseCex : List (String × Json) :=
  [("type", Json.str "assistant"),
   ("message", Json.obj [("content", Json.arr
     [Json.obj [("type", Json.str "tool_use"), ("name", Json.str ""),
       ("input", Json.obj [])]])])]

/-- Assistant content array for the C5 witness: one text block and one named
tool_use block. -/
def arrToolUseW : List Json :=
  [Json.obj [("type", Json.str "text"), ("text", Json.str "Let me check.")],
   Json.obj [("type", Json.str "tool_use"), ("name", Json.str "Read"),
     ("input", Json.obj [("file_path", Json.str "/tmp/foo.go")])]]

def msgToolUseW : List (String × Json) :=
  [("content", Json.arr arrToolUseW)]

def objToolUseW : List (String × Json) :=
  [("type", Json.str "assistant"), ("message", Json.obj msgToolUseW)]

/-- Filesystem exhibiting the discovery overlap: the codex home lies inside
the claude projects tree, so one file is discovered by both walks. -/
def fsOverlap : Fs :=
  [⟨"/h/projects/sessions/rollout-a.jsonl", 0, ""⟩, ⟨"/h/projects/a.jsonl", 0, ""⟩]

/-- A duplicate-free filesystem for the discovery witness. -/
def fsDiscoverW : Fs :=
  [⟨"/c/sessions/rollout-b.jsonl", 0, ""⟩, ⟨"/c/sessions/rollout-a.jsonl", 0, ""⟩,
   ⟨"/h/projects/-x/u.jsonl", 0, ""⟩]

/-- The empty database. -/
def emptyDb : DbState := ⟨[], [], [], [], 1⟩

def srcResetW : SourceFile := ⟨"/x/f.jsonl", "rollout"⟩

/-- A shrunken file for the reset witness: its size 0 undercuts the recorded
offset. -/
def fsResetW : Fs := [⟨"/x/f.jsonl", 5, ""⟩]

def rowResetW : Message := ⟨1, "x", none, "user", "old", "message", "rollout", "/x/f.jsonl", ""⟩

/-- A database that already ingested `/x/f.jsonl` up to offset 7. -/
def dbResetW : DbState :=
  ⟨[rowResetW], [⟨1, "x", "user", "old"⟩], [⟨"/x/f.jsonl", 5, 7, 7, "rollout"⟩], [], 2⟩

def srcIngestW : SourceFile := ⟨"/x/f.jsonl", "rollout"⟩

def fsIngestW : Fs := [⟨"/x/f.jsonl", 5, lineMsgW ++ "\n"⟩]

/-- The row the ingest witness inserts. -/
def rowIngestW : Message := ⟨1, "x", none, "user", "hi", "message", "rollout", "/x/f.jsonl", ""⟩

/-- A boilerplate-only session: one environment-context user message and one
assistant message. -/
def msgsBoilerW : List Message :=
  [⟨1, "s", none, "user", "<environment_context> /Users/x zsh </environment_context>",
     "message", "rollout", "/p/f.jsonl", ""⟩,
   ⟨2, "s", some 5, "assistant", "ok", "message", "rollout", "/p/f.jsonl", ""⟩]

/-- A canonical assistant message whose content is whitespace only. -/
def msgBlankW : Message := ⟨1, "s", none, "assistant", " ", "message", "rollout", "/p", ""⟩

/-- A canonical non-boilerplate user message. -/
def msgUserW : Message := ⟨1, "s", none, "user", "real question", "message", "rollout", "/p", ""⟩

def allTogglesOff : TranscriptToggles := ⟨false, false, false⟩

/-- The decoded object of `lineMsgW`, for the C4 witness. -/
def oMsgW : List (String × Json) :=
  [("type", Json.str "message"), ("role", Json.str "user"), ("content", Json.str "hi")]

/-- Search oracles for the fallback witness: a failing full-text query and a
succeeding substring query. -/
def sessW : Session := ⟨"s1", "rollout", 9, 2, "", "hello"⟩

def dbAllW : Int → Except String (List Session) := fun _ => .ok []

def dbFtsFailW : String → Except String (List Session) := fun _ => .error "fts down"

def dbLikeOkW : List String → Except String (List Session) := fun _ => .ok [sessW]

def dbLikeFailW : List String → Except String (List Session) := fun _ => .error "like down"

/-! General helper lemmas. -/

theorem dropWhile_head_not {α : Type} {p : α → Bool} {l : List α} {a : α} {t : List α}
    (h : l.dropWhile p = a :: t) : p a = false := by
  have hl : 0 < (l.dropWhile p).length := by rw [h]; simp
  have := List.dropWhile_get_zero_not p l hl
  simpa [h] using this

theorem dropWhile_of_head_not {α : Type} {p : α → Bool} {l : List α}
    (h : ∀ a t, l = a :: t → p a = false) : l.dropWhile p = l := by
  cases l with
  | nil => rfl
  | cons a t => rw [List.dropWhile_cons_of_neg (by simp [h a t rfl])]

theorem dropWhile_idem {α : Type} (p : α → Bool) (l : List α) :
    (l.dropWhile p).dropWhile p = l.dropWhile p := by
  apply dropWhile_of_head_not
  intro a t h
  exact dropWhile_head_not h

theorem trimSpace_idem (s : String) : trimSpace (trimSpace s) = trimSpace s := by
  unfold trimSpace
  congr 1
  set q := isSpaceChar with hq
  set A := s.data.dropWhile q with hA
  set B := (A.reverse.dropWhile q) with hB
  have hBdrop : B.dropWhile q = B := by rw [hB]; exact dropWhile_idem q A.reverse
  have hstep1 : (B.reverse : List Char).dropWhile q = B.reverse := by
    apply dropWhile_of_head_not
    intro a t h
    have hBne : B ≠ [] := by
      intro hnil
      rw [hnil] at h
      simp at h
    have hlast : B.getLast hBne = A.reverse.getLast (by
        intro hnil
        apply hBne
        rw [hB, hnil]
        rfl) := by
      exact List.IsSuffix.getLast (by rw [hB]; exact List.dropWhile_suffix q) hBne
    have hheadrev : (B.reverse : List Char).head? = some (B.getLast hBne) := by
      rw [List.head?_reverse]
      exact (List.getLast?_eq_getLast B hBne).symm ▸ rfl
    have ha : B.getLast hBne = a := by
      rw [h] at hheadrev
      simpa using hheadrev.symm
    have hArev : A.reverse.getLast (by
        intro hnil
        apply hBne
        rw [hB, hnil]
        rfl) = A.head (by
          intro hnil
          apply hBne
          rw [hB, hnil]
          rfl) := by
      simp [List.getLast_reverse]
    have hAhead : q (A.head (by
        intro hnil
        apply hBne
        rw [hB, hnil]
        rfl)) = false := by
      have hcons := List.head_cons_tail A (by
        intro hnil
        apply hBne
        rw [hB, hnil]
        rfl)
      exact dropWhile_head_not (l := s.data) (by rw [← hA]; exact hcons.symm)
    rw [← ha, hlast, hArev]
    exact hAhead
  rw [hstep1, List.reverse_reverse, hBdrop]

theorem isBoilerplateUserContent_trim (c : String) :
    isBoilerplateUserContent (trimSpace c) = isBoilerplateUserContent c := by
  unfold isBoilerplateUserContent
  rw [trimSpace_idem]

/-! C10 helper. -/

theorem parseJSONLLineObj_length_le_one (o : List (String × Json)) (path : String) :
    (parseJSONLLineObj o path).length ≤ 1 := by
  simp only [parseJSONLLineObj]
  split_ifs <;> simp

/-- C10: for every input line and source path, the Family-A parser
`parseJSONLLine` returns either an error or a list of at most one event — the
"many events per line" case never occurs in this family. -/
theorem parseJSONLLine_at_most_one_event (line sourcePath : String) :
    match parseJSONLLine line sourcePath with
    | .error _ => True
    | .ok evs => evs.length ≤ 1 := by
  unfold parseJSONLLine
  cases h : jsonDecode line with
  | none => simp
  | some j =>
    cases j <;> simp <;> exact parseJSONLLineObj_length_le_one ..

/-- C4 counterexample: a Family-A `message` line whose role string `"weird"`
passes through `normalizeRole` unchanged, so the emitted role lies outside
{user, assistant, tool, event, system}. -/
theorem parseJSONLLine_role_outside_set :
    parseJSONLLine lineRoleCex "/logs/f.jsonl" =
      .ok [⟨"logs", none, "weird", "hi", "message", ""⟩] ∧
    "weird" ∉ (["user", "assistant", "tool", "event", "system"] : List String) := by
  constructor
  · rfl
  · decide

/-- C4 amended: for a Family-A line of effective type `"message"`, non-empty
resolved content yields exactly one event of type `"message"` whose role is
the normalized resolved role — `"event"` exactly when role resolution failed
(the normalized role itself need not lie in the documented set) — and empty
resolved content yields no event. -/
theorem parseJSONLLine_message_events (o : List (String × Json)) (path : String)
    (hty : effectiveType o = "message") :
    (extractContent o ≠ "" →
      parseJSONLLineObj o path =
        [⟨extractSessionID o path, extractTimestamp o,
          (if lineRole o = "" then "event" else lineRole o),
          extractContent o, "message", extractWorkdir o⟩]) ∧
    (extractContent o = "" → parseJSONLLineObj o path = []) := by
  constructor <;> intro h <;> simp [parseJSONLLineObj, hty, h]

/-- C4 amended, witness: a concrete user message line emits one event of the
stated shape. -/
theorem parseJSONLLine_message_events_witness :
    parseJSONLLineObj oMsgW "/x/f.jsonl" =
      [⟨extractSessionID oMsgW "/x/f.jsonl", extractTimestamp oMsgW,
        (if lineRole oMsgW = "" then "event" else lineRole oMsgW),
        extractContent oMsgW, "message", extractWorkdir oMsgW⟩] :=
  (parseJSONLLine_message_events oMsgW "/x/f.jsonl" (by decide)).1 (by decide)

/-- C9 counterexample: a canonical assistant message whose content is
whitespace only is not boilerplate, yet `FilterMessages` drops it, so
canonical non-boilerplate messages do not always pass. -/
theorem FilterMessages_blank_canonical_cex :
    FilterMessages [msgBlankW] allTogglesOff = [] ∧
    msgBlankW.typ = "message" ∧ msgBlankW.role = "assistant" ∧
    isBoilerplateUserMessage msgBlankW = false := by decide

/-- C9 amended: for every message list and toggle combination, every
canonical user/assistant message with non-empty trimmed content that is not
boilerplate passes; boilerplate user messages never pass, whatever the
toggles; and an aborted input (type `user_message`) whose
normalized-whitespace, case-insensitive text also appears as a canonical
non-boilerplate user message is suppressed even with the aborted toggle on. -/
theorem FilterMessages_passes_and_suppresses (msgs : List Message) (t : TranscriptToggles) :
    (∀ m ∈ msgs, m.typ = "message" → (m.role = "user" ∨ m.role = "assistant") →
        trimSpace m.content ≠ "" → isBoilerplateUserMessage m = false →
        m ∈ FilterMessages msgs t) ∧
    (∀ m ∈ FilterMessages msgs t, isBoilerplateUserMessage m = false) ∧
    (∀ m c : Message, m.typ = "user_message" → c ∈ msgs → c.typ = "message" →
        c.role = "user" → isBoilerplateUserContent c.content = false →
        normalizeContent c.content ≠ "" →
        normalizeContent m.content = normalizeContent c.content →
        m ∉ FilterMessages msgs t) := by
  refine ⟨?_, ?_, ?_⟩
  · intro m hm h1 h2 h3 h4
    rw [FilterMessages, List.mem_filter]
    refine ⟨hm, ?_⟩
    rcases h2 with h2 | h2 <;> simp [keepMessage, h1, h2, h3, h4]
  · intro m hm
    rw [FilterMessages, List.mem_filter] at hm
    rcases hm with ⟨-, hkeep⟩
    unfold keepMessage at hkeep
    split_ifs at hkeep <;> simp_all
  · intro m c hm hc hct hcr hcb hcn heq hmem
    rw [FilterMessages, List.mem_filter] at hmem
    rcases hmem with ⟨-, hkeep⟩
    have hcanon : normalizeContent c.content ∈ canonicalUserSet msgs := by
      rw [canonicalUserSet, List.mem_filterMap]
      exact ⟨c, hc, by simp [hct, hcr, hcb, hcn]⟩
    have hcont : (canonicalUserSet msgs).contains (normalizeContent m.content) = true := by
      rw [heq]
      exact List.elem_iff.mpr hcanon
    unfold keepMessage at hkeep
    split_ifs at hkeep <;> simp_all

/-- C9 amended, witness: a concrete canonical user message passes the
filter. -/
theorem FilterMessages_passes_witness :
    msgUserW ∈ FilterMessages [msgUserW] allTogglesOff :=
  (FilterMessages_passes_and_suppresses [msgUserW] allTogglesOff).1 msgUserW
    (by decide) (by decide) (Or.inl (by decide)) (by decide) (by decide)

/-- C6: a session none of whose canonical user rows carries non-empty,
non-boilerplate content gets message count 0, however many rows (assistant
rows included) it holds. -/
theorem messageCount_zero_without_real_user (msgs : List Message) (sid : String)
    (h : ∀ m ∈ msgs, m.sessionID = sid → m.typ = "message" → m.role = "user" →
      trimSpace m.content = "" ∨ isBoilerplateUserContent m.content = true) :
    (computeSessionSummary msgs sid).MessageCount = 0 := by
  have hreal : hasRealUserMessage msgs sid = false := by
    rw [hasRealUserMessage, List.any_eq_false]
    intro m hm hφ
    simp only [Bool.and_eq_true, beq_iff_eq, Bool.not_eq_true'] at hφ
    obtain ⟨⟨⟨⟨hsid, hty⟩, hrole⟩, hne⟩, hnc⟩ := hφ
    have hne' : trimSpace m.content ≠ "" := by
      intro hx
      rw [hx] at hne
      simp at hne
    rcases h m hm hsid hty hrole with hx | hB
    · exact hne' hx
    · unfold isNonConversationalPreviewContent at hnc
      rw [if_neg hne'] at hnc
      rw [isBoilerplateUserContent_trim, hB] at hnc
      simp at hnc
  simp [computeSessionSummary, hreal]

/-- C6 witness: the session with one boilerplate user message and one
assistant message has message count 0. -/
theorem messageCount_zero_without_real_user_witness :
    (computeSessionSummary msgsBoilerW "s").MessageCount = 0 :=
  messageCount_zero_without_real_user msgsBoilerW "s" (by decide)

/-- C8: with full-text mode active and a non-empty query, a full-text query
failure makes `ListSessions` serve the substring-fallback result, and an
error reaches the caller exactly when the fallback fails as well. -/
theorem listSessions_retries_like_on_fts_failure
    (query0 : String) (limit0 : Int)
    (dbAll : Int → Except String (List Session))
    (dbFts : String → Except String (List Session))
    (dbLike : List String → Except String (List Session)) (e : String)
    (hq : trimSpace query0 ≠ "")
    (hfts : searchRowsFTS (trimSpace query0) dbFts = .error e) :
    ListSessions true query0 limit0 dbAll dbFts dbLike =
      (match searchRowsLike (trimSpace query0) dbLike with
       | .ok rows => .ok rows
       | .error fbErr =>
         .error ("list sessions search (fts and fallback failed): fts=" ++ e ++
           ", fallback=" ++ fbErr)) := by
  unfold ListSessions
  simp only [if_neg hq]
  unfold searchRows
  rw [hfts]
  rcases hl : searchRowsLike (trimSpace query0) dbLike with fbErr | rows <;> simp [hl]

/-- C8 witness: with a failing full-text oracle and a succeeding substring
oracle the fallback rows are returned. -/
theorem listSessions_retries_like_witness :
    ListSessions true "hello" 10 dbAllW dbFtsFailW dbLikeOkW = .ok [sessW] :=
  (listSessions_retries_like_on_fts_failure "hello" 10 dbAllW dbFtsFailW dbLikeOkW
    "fts down" (by decide) rfl).trans rfl

/-- C2: for a discovered file with a recorded watermark, the three rewrite
conditions (size below the recorded offset, mtime gone backwards, mtime
changed at unchanged size) reset the offset to 0 and delete the path's
messages and FTS mirrors before re-ingesting; otherwise ingestion resumes at
the recorded offset with no deletion. -/
theorem ingestFile_reset_or_resume
    (fs : Fs) (src : SourceFile) (st : DbState) (f : FsFile) (meta : IngestedFile)
    (hstat : statFs fs src.Path = some f)
    (hmeta : lookupWm st.ingested src.Path = some meta) :
    (fileSize f < meta.offset ∨ f.mtime < meta.mtime ∨
        (f.mtime ≠ meta.mtime ∧ fileSize f = meta.size) →
      ingestFile fs st src =
        { scanFrom src f 0 (deleteForPath st src.Path) with
          ingested := upsertWm (scanFrom src f 0 (deleteForPath st src.Path)).ingested
            ⟨src.Path, f.mtime, fileSize f, fileSize f, src.Source⟩ }) ∧
    (¬ (fileSize f < meta.offset ∨ f.mtime < meta.mtime ∨
        (f.mtime ≠ meta.mtime ∧ fileSize f = meta.size)) →
      ingestFile fs st src =
        { scanFrom src f meta.offset st with
          ingested := upsertWm (scanFrom src f meta.offset st).ingested
            ⟨src.Path, f.mtime, fileSize f, fileSize f, src.Source⟩ }) := by
  constructor <;> intro hc
  · have hb : (decide (fileSize f < meta.offset) || decide (f.mtime < meta.mtime) ||
        (decide (f.mtime ≠ meta.mtime) && decide (fileSize f = meta.size))) = true := by
      rcases hc with h | h | ⟨h1, h2⟩
      · simp [h]
      · simp [h]
      · simp [h1, h2]
    simp only [ingestFile, hstat, hmeta, hb]
    simp
  · push_neg at hc
    obtain ⟨h1, h2, h3⟩ := hc
    have hb : (decide (fileSize f < meta.offset) || decide (f.mtime < meta.mtime) ||
        (decide (f.mtime ≠ meta.mtime) && decide (fileSize f = meta.size))) = false := by
      by_cases hm : f.mtime = meta.mtime
      · simp [h1, h2, hm]
      · simp [h1, h2, h3 hm]
    simp only [ingestFile, hstat, hmeta, hb]
    simp

/-- C2 witness: a file shrunk to size 0 below the recorded offset 7 takes the
reset path. -/
theorem ingestFile_reset_witness :
    ingestFile fsResetW dbResetW srcResetW =
      { scanFrom srcResetW ⟨"/x/f.jsonl", 5, ""⟩ 0 (deleteForPath dbResetW srcResetW.Path) with
        ingested := upsertWm
          (scanFrom srcResetW ⟨"/x/f.jsonl", 5, ""⟩ 0
            (deleteForPath dbResetW srcResetW.Path)).ingested
          ⟨srcResetW.Path, 5, fileSize ⟨"/x/f.jsonl", 5, ""⟩,
            fileSize ⟨"/x/f.jsonl", 5, ""⟩, srcResetW.Source⟩ } :=
  (ingestFile_reset_or_resume fsResetW srcResetW dbResetW ⟨"/x/f.jsonl", 5, ""⟩
    ⟨"/x/f.jsonl", 5, 7, 7, "rollout"⟩ rfl rfl).1 (Or.inl (by decide))

/-! C3 helper lemmas. -/

theorem mk_string_ne_empty {l : List Char} (h : l ≠ []) : (⟨l⟩ : String) ≠ "" := by
  intro he
  exact h (congrArg String.data he)

theorem goBase_ne_empty (p : String) : goBase p ≠ "" := by
  simp only [goBase]
  split_ifs with h1 h2
  · decide
  · decide
  · apply mk_string_ne_empty
    rcases hr : p.data.reverse.dropWhile (fun c => c = '/') with _ | ⟨a, t⟩
    · rw [hr] at h2
      simp at h2
    · have ha := dropWhile_head_not hr
      rw [List.takeWhile_cons_of_pos (by simpa using ha)]
      simp

theorem matchRolloutAt_ne_empty {l : List Char} {cap : String}
    (h : matchRolloutAt l = some cap) : cap ≠ "" := by
  simp only [matchRolloutAt] at h
  split_ifs at h with h1 h2 h3 h4 <;> try simp at h
  subst h
  apply mk_string_ne_empty
  simpa [List.isEmpty_iff] using h2

theorem rolloutPathCaptureAux_ne_empty :
    ∀ {l : List Char} {cap : String}, rolloutPathCaptureAux l = some cap → cap ≠ "" := by
  intro l
  induction l with
  | nil => intro cap h; simp [rolloutPathCaptureAux] at h
  | cons c t ih =>
    intro cap h
    unfold rolloutPathCaptureAux at h
    rcases hm : matchRolloutAt (c :: t) with _ | cap2 <;> rw [hm] at h
    · exact ih h
    · obtain rfl : cap = cap2 := by simpa using h.symm
      exact matchRolloutAt_ne_empty hm

theorem rolloutFilenameCapture_ne_empty {base : String} {cap : String}
    (h : rolloutFilenameCapture base = some cap) : cap ≠ "" := by
  simp only [rolloutFilenameCapture] at h
  split_ifs at h with h1
  obtain rfl : cap = ⟨(base.data.drop (base.data.length - 42)).take 36⟩ := by
    simpa using h.symm
  apply mk_string_ne_empty
  have h51 : 51 ≤ base.data.length := by
    simp only [Bool.and_eq_true, decide_eq_true_eq] at h1
    exact h1.1.1.1.1
  intro hnil
  have hlen := congrArg List.length hnil
  rw [List.length_take, List.length_drop, List.length_nil] at hlen
  omega

theorem sessionIDFromPath_ne_empty (p : String) : sessionIDFromPath p ≠ "" := by
  simp only [sessionIDFromPath]
  split
  · rename_i cap h1
    exact rolloutPathCaptureAux_ne_empty h1
  · split
    · rename_i cap2 h2
      exact rolloutFilenameCapture_ne_empty h2
    · split_ifs with h3 h4
      · decide
      · exact goBase_ne_empty (goDir p)
      · decide

theorem insertEvent_invariant {src : SourceFile} {evt : ParsedEvent} {st : DbState}
    (h : ∀ m ∈ st.messages, trimSpace m.content ≠ "" ∧ m.sessionID ≠ "") :
    ∀ m ∈ (insertEvent src evt st).messages,
      trimSpace m.content ≠ "" ∧ m.sessionID ≠ "" := by
  intro m hm
  unfold insertEvent at hm
  split_ifs at hm with h0
  · exact h m hm
  · rcases List.mem_append.mp hm with hold | hnew
    · exact h m hold
    · obtain rfl := List.mem_singleton.mp hnew
      refine ⟨h0, ?_⟩
      dsimp only
      split_ifs with hs
      · exact sessionIDFromPath_ne_empty src.Path
      · exact hs

theorem foldEvents_invariant (src : SourceFile) (evts : List ParsedEvent) :
    ∀ st : DbState, (∀ m ∈ st.messages, trimSpace m.content ≠ "" ∧ m.sessionID ≠ "") →
      ∀ m ∈ (evts.foldl (fun s e => insertEvent src e s) st).messages,
        trimSpace m.content ≠ "" ∧ m.sessionID ≠ "" := by
  induction evts with
  | nil => intro st h; exact h
  | cons e rest ih =>
    intro st h
    exact ih (insertEvent src e st) (insertEvent_invariant h)

theorem ingestLine_invariant {src : SourceFile} {st : DbState} {line : String}
    (h : ∀ m ∈ st.messages, trimSpace m.content ≠ "" ∧ m.sessionID ≠ "") :
    ∀ m ∈ (ingestLine src st line).messages,
      trimSpace m.content ≠ "" ∧ m.sessionID ≠ "" := by
  unfold ingestLine
  rcases parseLineFor src.Source line src.Path with _ | evts
  · exact h
  · exact foldEvents_invariant src evts st h

theorem scanFrom_invariant (src : SourceFile) (f : FsFile) (offset : Int) :
    ∀ st : DbState, (∀ m ∈ st.messages, trimSpace m.content ≠ "" ∧ m.sessionID ≠ "") →
      ∀ m ∈ (scanFrom src f offset st).messages,
        trimSpace m.content ≠ "" ∧ m.sessionID ≠ "" := by
  unfold scanFrom
  generalize goScanLines (dropStr f.content offset.toNat) = lines
  induction lines with
  | nil => intro st h; exact h
  | cons line rest ih =>
    intro st h
    exact ih (ingestLine src st line) (ingestLine_invariant h)

theorem deleteForPath_invariant {st : DbState} {p : String}
    (h : ∀ m ∈ st.messages, trimSpace m.content ≠ "" ∧ m.sessionID ≠ "") :
    ∀ m ∈ (deleteForPath st p).messages,
      trimSpace m.content ≠ "" ∧ m.sessionID ≠ "" := by
  intro m hm
  unfold deleteForPath at hm
  exact h m (List.mem_filter.mp hm).1

/-- C3: after any single-file ingestion pass over a database whose message
rows already satisfy it, every message row has non-empty trimmed content and
a non-empty session id (the path-derived fallback id is never empty). -/
theorem ingestFile_message_invariant (fs : Fs) (src : SourceFile) (st : DbState)
    (h : ∀ m ∈ st.messages, trimSpace m.content ≠ "" ∧ m.sessionID ≠ "") :
    ∀ m ∈ (ingestFile fs st src).messages,
      trimSpace m.content ≠ "" ∧ m.sessionID ≠ "" := by
  unfold ingestFile
  cases hstat : statFs fs src.Path with
  | none => exact h
  | some f =>
    dsimp only
    split_ifs with hr
    · exact fun m hm => scanFrom_invariant src f _ _ (deleteForPath_invariant h) m hm
    · exact fun m hm => scanFrom_invariant src f _ _ h m hm

/-- C3 witness: the row ingested from a concrete message line satisfies the
invariant. -/
theorem ingestFile_message_invariant_witness :
    trimSpace rowIngestW.content ≠ "" ∧ rowIngestW.sessionID ≠ "" :=
  ingestFile_message_invariant fsIngestW srcIngestW emptyDb (by simp [emptyDb])
    rowIngestW (by decide)

set_option maxRecDepth 100000

/-- C5 counterexample: a Family-B assistant line holding exactly one
tool_use block (with empty name) yields zero events, so not every tool_use
block becomes an event. -/
theorem claude_tool_use_dropped_cex :
    parseClaudeJSONLLine lineToolUseCex "/p/s.jsonl" = .ok [] ∧
    jsonDecode lineToolUseCex = some (Json.obj objToolUseCex) :=
  ⟨rfl, rfl⟩

theorem append_ne_empty_left (a b : String) (h : a ≠ "") : a ++ b ≠ "" := by
  intro he
  apply h
  have hd : a.data ++ b.data = [] := congrArg String.data he
  have ha : a.data = [] := (List.append_eq_nil.mp hd).1
  cases a
  cases ha
  rfl

theorem formatToolUse_empty_iff (name : String) (input : Json) :
    formatToolUse name input = "" ↔ name = "" := by
  constructor
  · intro h
    by_contra hn
    rcases input <;> simp only [formatToolUse, if_neg hn] at h <;>
      first
        | exact append_ne_empty_left name _ hn h
        | (split_ifs at h <;>
            first
              | exact append_ne_empty_left name _ hn h
              | exact append_ne_empty_left (name ++ ": ") _ (append_ne_empty_left name _ hn) h)
  · intro h
    simp [formatToolUse, h]

theorem formatToolUse_spec_content (name : String) (input : Json) (h : name ≠ "") :
    formatToolUse name input =
      (match (match input with
              | Json.obj m => if m.isEmpty then none else some (goJsonMarshal (Json.obj m))
              | _ => none : Option String) with
       | none => name ++ "()"
       | some s => name ++ ": " ++ (if 500 < strLen s then takeStr s 497 ++ "..." else s)) := by
  rcases input with _ | b | n | s2 | items | m <;> simp only [formatToolUse, if_neg h]
  by_cases hE : m.isEmpty = true <;> simp [hE]

theorem claudeAssistantStep_fst (sid : String) (ts : Option Int) (wd : String)
    (acc : List ParsedEvent × List String) (item : Json) :
    (claudeAssistantStep sid ts wd acc item).1 =
      acc.1 ++ (specToolUseEvent sid ts wd item).toList := by
  rcases item with _ | b | n | s | items | block <;>
    simp only [claudeAssistantStep, specToolUseEvent, Option.toList] <;> try simp
  by_cases h1 : asString (firstByPath block [["type"]]) = "text"
  · have h2' : asString (firstByPath block [["type"]]) ≠ "tool_use" := by
      rw [h1]
      decide
    simp only [if_pos h1, if_neg h2']
    split_ifs <;> simp
  · by_cases h2 : asString (firstByPath block [["type"]]) = "tool_use"
    · simp only [if_neg h1, if_pos h2]
      by_cases hn : asString (firstByPath block [["name"]]) = ""
      · simp [hn, (formatToolUse_empty_iff "" ((objGet block "input").getD Json.null)).mpr rfl]
      · have hfne : formatToolUse (asString (firstByPath block [["name"]]))
            ((objGet block "input").getD Json.null) ≠ "" := by
          rw [Ne, formatToolUse_empty_iff]
          exact hn
        rw [formatToolUse_spec_content _ _ hn] at hfne ⊢
        simp only [if_neg hn]
        rw [if_neg hfne]
    · simp only [if_neg h1, if_neg h2]
      simp

theorem claudeAssistantFold_fst (sid : String) (ts : Option Int) (wd : String)
    (arr : List Json) :
    ∀ acc : List ParsedEvent × List String,
      (arr.foldl (claudeAssistantStep sid ts wd) acc).1 =
        acc.1 ++ arr.filterMap (specToolUseEvent sid ts wd) := by
  induction arr with
  | nil => intro acc; simp
  | cons item rest ih =>
    intro acc
    rw [List.foldl_cons, ih, List.filterMap_cons, claudeAssistantStep_fst]
    rcases specToolUseEvent sid ts wd item with _ | e <;> simp

/-- C5 amended: in a Family-B assistant message with a content array, the
tool_use blocks with non-empty names each become exactly one role-tool,
type-tool_use event whose content is `"<name>()"` without a non-empty input
object and otherwise the name with the compact input JSON cut to 497
characters plus `"..."` (500 in total) when longer than 500; empty-named
blocks are dropped; at most one combined assistant text event precedes
them. -/
theorem parseClaudeAssistantMessage_events
    (o msg : List (String × Json)) (arr : List Json)
    (sid wd : String) (ts : Option Int)
    (hmsg : objGet o "message" = some (Json.obj msg))
    (hcontent : objGet msg "content" = some (Json.arr arr)) :
    ∃ textEvt : List ParsedEvent,
      parseClaudeAssistantMessage o sid ts wd =
        textEvt ++ arr.filterMap (specToolUseEvent sid ts wd) ∧
      textEvt.length ≤ 1 ∧
      ∀ e ∈ textEvt, e.role = "assistant" ∧ e.typ = "message" := by
  unfold parseClaudeAssistantMessage
  simp only [hmsg, hcontent]
  by_cases ha : arr.isEmpty
  · obtain rfl : arr = [] := List.isEmpty_iff.mp ha
    exact ⟨[], by simp, by simp, by simp⟩
  · rw [if_neg ha]
    have hfold := claudeAssistantFold_fst sid ts wd arr ([], [])
    by_cases hc :
        trimSpace (joinStr "\n\n" (arr.foldl (claudeAssistantStep sid ts wd) ([], [])).2) = ""
    · refine ⟨[], ?_, by simp, by simp⟩
      rw [if_neg (by simp [hc])]
      simpa using hfold
    · refine ⟨[⟨sid, ts, "assistant",
        trimSpace (joinStr "\n\n" (arr.foldl (claudeAssistantStep sid ts wd) ([], [])).2),
        "message", wd⟩], ?_, by simp, by simp⟩
      rw [if_pos (by simp [hc])]
      simpa using hfold

/-- C5 amended, witness: a concrete assistant line with one text and one
named tool_use block produces the combined text event followed by the
tool_use event of the stated shape. -/
theorem parseClaudeAssistantMessage_events_witness :
    parseClaudeAssistantMessage objToolUseW "s1" none "/w" =
      [⟨"s1", none, "assistant", "Let me check.", "message", "/w"⟩,
       ⟨"s1", none, "tool", "Read: \x7b\"file_path\":\"/tmp/foo.go\"\x7d",
         "tool_use", "/w"⟩] := by
  obtain ⟨te, heq, hlen, hrole⟩ :=
    parseClaudeAssistantMessage_events objToolUseW msgToolUseW arrToolUseW "s1" "/w" none
      rfl rfl
  exact rfl

/-! Sorting lemmas for the discovery claims. -/

theorem charListLe_total : ∀ a b : List Char, charListLe a b = true ∨ charListLe b a = true := by
  intro a
  induction a with
  | nil => intro b; left; rfl
  | cons x xs ih =>
    intro b
    cases b with
    | nil => right; rfl
    | cons y ys =>
      by_cases h1 : x.toNat < y.toNat
      · left; simp [charListLe, h1]
      · by_cases h2 : y.toNat < x.toNat
        · right; simp [charListLe, h2]
        · rcases ih ys with h | h
          · left; simp [charListLe, h1, h2, h]
          · right; simp [charListLe, h1, h2, h]

theorem charListLe_trans : ∀ a b c : List Char, charListLe a b = true →
    charListLe b c = true → charListLe a c = true := by
  intro a
  induction a with
  | nil => intro b c _ _; rfl
  | cons x xs ih =>
    intro b c hab hbc
    cases b with
    | nil => simp [charListLe] at hab
    | cons y ys =>
      cases c with
      | nil => simp [charListLe] at hbc
      | cons z zs =>
        simp only [charListLe] at hab hbc ⊢
        split_ifs at hab hbc ⊢ with g1 g2 g3 g4 g5 g6 <;>
          first
            | rfl
            | omega
            | exact ih ys zs hab hbc

theorem strLe_total (a b : String) : strLe a b = true ∨ strLe b a = true :=
  charListLe_total a.data b.data

theorem strLe_trans {a b c : String} (h1 : strLe a b = true) (h2 : strLe b c = true) :
    strLe a c = true :=
  charListLe_trans a.data b.data c.data h1 h2

theorem mem_insertLeBy {α : Type} (le : α → α → Bool) (a x : α) :
    ∀ l : List α, x ∈ insertLeBy le a l ↔ x = a ∨ x ∈ l := by
  intro l
  induction l with
  | nil => simp [insertLeBy]
  | cons b t ih =>
    by_cases h : le a b = true
    · simp only [insertLeBy, if_pos h, List.mem_cons]
    · simp only [insertLeBy, if_neg h, List.mem_cons, ih]
      tauto

theorem insertLeBy_pairwise {α : Type} (le : α → α → Bool)
    (htot : ∀ a b, le a b = true ∨ le b a = true)
    (htrans : ∀ a b c, le a b = true → le b c = true → le a c = true)
    (a : α) : ∀ l : List α, l.Pairwise (fun x y => le x y = true) →
    (insertLeBy le a l).Pairwise (fun x y => le x y = true) := by
  intro l
  induction l with
  | nil => intro _; simp [insertLeBy]
  | cons b t ih =>
    intro hl
    rw [List.pairwise_cons] at hl
    obtain ⟨hb, ht⟩ := hl
    by_cases h : le a b = true
    · simp only [insertLeBy, if_pos h]
      rw [List.pairwise_cons]
      refine ⟨?_, List.pairwise_cons.mpr ⟨hb, ht⟩⟩
      intro x hx
      rcases List.mem_cons.mp hx with rfl | hx
      · exact h
      · exact htrans a b x h (hb x hx)
    · simp only [insertLeBy, if_neg h]
      rw [List.pairwise_cons]
      refine ⟨?_, ih ht⟩
      intro x hx
      rcases (mem_insertLeBy le a x t).mp hx with hxa | hx
      · subst hxa
        rcases htot x b with hab | hba
        · exact absurd hab h
        · exact hba
      · exact hb x hx

theorem insertLeBy_perm {α : Type} (le : α → α → Bool) (a : α) :
    ∀ l : List α, (insertLeBy le a l).Perm (a :: l) := by
  intro l
  induction l with
  | nil => simp [insertLeBy]
  | cons b t ih =>
    by_cases h : le a b = true
    · simp [insertLeBy, h]
    · simp only [insertLeBy, if_neg h]
      exact List.Perm.trans (List.Perm.cons b ih) (List.Perm.swap a b t)

theorem sortLeBy_pairwise {α : Type} (le : α → α → Bool)
    (htot : ∀ a b, le a b = true ∨ le b a = true)
    (htrans : ∀ a b c, le a b = true → le b c = true → le a c = true) :
    ∀ l : List α, (sortLeBy le l).Pairwise (fun x y => le x y = true) := by
  intro l
  induction l with
  | nil => simp [sortLeBy]
  | cons a t ih => exact insertLeBy_pairwise le htot htrans a _ ih

theorem sortLeBy_perm {α : Type} (le : α → α → Bool) :
    ∀ l : List α, (sortLeBy le l).Perm l := by
  intro l
  induction l with
  | nil => simp [sortLeBy]
  | cons a t ih =>
    exact List.Perm.trans (insertLeBy_perm le a (sortLeBy le t)) (List.Perm.cons a ih)

/-- C7 counterexample: with the codex home nested inside the claude projects
tree, discovery returns the same path twice and the whole list is not
lexicographically ordered. -/
theorem discoverAllSources_dup_cex :
    (discoverAllSources fsOverlap "/h/projects" "/h").map (·.Path) =
      ["/h/projects/sessions/rollout-a.jsonl", "/h/projects/a.jsonl",
       "/h/projects/sessions/rollout-a.jsonl"] ∧
    ¬ ((discoverAllSources fsOverlap "/h/projects" "/h").map (·.Path)).Nodup ∧
    ¬ ((discoverAllSources fsOverlap "/h/projects" "/h").map (·.Path)).Pairwise
        (fun a b => strLe a b = true) := by
  refine ⟨by decide, by decide, ?_⟩
  intro hp
  rw [show (discoverAllSources fsOverlap "/h/projects" "/h").map (·.Path) =
    ["/h/projects/sessions/rollout-a.jsonl", "/h/projects/a.jsonl",
     "/h/projects/sessions/rollout-a.jsonl"] from by decide] at hp
  rw [List.pairwise_cons] at hp
  have := hp.1 "/h/projects/a.jsonl" (by decide)
  exact absurd this (by decide)

/-- C7 amended: discovery returns the Family-A list followed by the Family-B
list; each family's list is lexicographically sorted by path and (on a
duplicate-free filesystem) free of duplicate paths, and a root with no
matching files contributes the empty list rather than an error — but the
concatenation is neither globally sorted nor deduplicated across families. -/
theorem discoverAllSources_per_family (fs : Fs) (ch clh : String)
    (hnd : (fs.map (·.path)).Nodup) :
    discoverAllSources fs ch clh =
      discoverCodexSources fs ch ++ discoverClaudeSources fs clh ∧
    (discoverCodexSources fs ch).Pairwise (fun a b => strLe a.Path b.Path = true) ∧
    ((discoverCodexSources fs ch).map (·.Path)).Nodup ∧
    (discoverClaudeSources fs clh).Pairwise (fun a b => strLe a.Path b.Path = true) ∧
    ((discoverClaudeSources fs clh).map (·.Path)).Nodup ∧
    ((∀ f ∈ fs, f.path ≠ joinPath ch "sessions" ∧
        isUnderDir (joinPath ch "sessions") f.path = false ∧
        f.path ≠ joinPath ch "history.jsonl") → discoverCodexSources fs ch = []) ∧
    ((∀ f ∈ fs, f.path ≠ joinPath clh "projects" ∧
        isUnderDir (joinPath clh "projects") f.path = false) →
      discoverClaudeSources fs clh = []) := by
  have htot : ∀ a b : SourceFile, strLe a.Path b.Path = true ∨ strLe b.Path a.Path = true :=
    fun a b => strLe_total a.Path b.Path
  have htrans : ∀ a b c : SourceFile, strLe a.Path b.Path = true →
      strLe b.Path c.Path = true → strLe a.Path c.Path = true :=
    fun _ _ _ hab hbc => strLe_trans hab hbc
  refine ⟨rfl, ?_, ?_, ?_, ?_, ?_, ?_⟩
  · simp only [discoverCodexSources]
    split_ifs with h
    · cases statFs fs (joinPath ch "history.jsonl") <;> simp
    · exact sortLeBy_pairwise _ htot htrans _
  · simp only [discoverCodexSources]
    split_ifs with h
    · cases statFs fs (joinPath ch "history.jsonl") <;> simp
    · have hperm := List.Perm.map (fun x : SourceFile => x.Path)
        (sortLeBy_perm (fun a b : SourceFile => strLe a.Path b.Path)
          ((fs.filter (fun f =>
            (f.path = joinPath ch "sessions" || isUnderDir (joinPath ch "sessions") f.path) &&
            hasPrefixStr (toLower (goBase f.path)) "rollout-" &&
            hasSuffixStr (toLower (goBase f.path)) ".jsonl")).map
              (fun f => SourceFile.mk f.path "rollout")))
      refine hperm.nodup_iff.mpr ?_
      rw [List.map_map]
      exact (List.Sublist.map (·.path) (List.filter_sublist fs)).nodup hnd
  · simp only [discoverClaudeSources]
    exact sortLeBy_pairwise _ htot htrans _
  · simp only [discoverClaudeSources]
    have hperm := List.Perm.map (fun x : SourceFile => x.Path)
      (sortLeBy_perm (fun a b : SourceFile => strLe a.Path b.Path)
        ((fs.filter (fun f =>
          (f.path = joinPath clh "projects" || isUnderDir (joinPath clh "projects") f.path) &&
          hasSuffixStr (toLower (goBase f.path)) ".jsonl" &&
          ¬ ((relComponents (joinPath clh "projects") f.path).dropLast.any
              (fun c => c = "subagents" || c = "memory")))).map
            (fun f => SourceFile.mk f.path "claude")))
    refine hperm.nodup_iff.mpr ?_
    rw [List.map_map]
    exact (List.Sublist.map (·.path) (List.filter_sublist fs)).nodup hnd
  · intro hall
    simp only [discoverCodexSources]
    have hfilter : fs.filter (fun f =>
        (f.path = joinPath ch "sessions" || isUnderDir (joinPath ch "sessions") f.path) &&
        hasPrefixStr (toLower (goBase f.path)) "rollout-" &&
        hasSuffixStr (toLower (goBase f.path)) ".jsonl") = [] := by
      rw [List.filter_eq_nil_iff]
      intro f hf
      obtain ⟨h1, h2, _⟩ := hall f hf
      simp [h1, h2]
    rw [hfilter]
    have hstat : statFs fs (joinPath ch "history.jsonl") = none := by
      rw [statFs, List.find?_eq_none]
      intro f hf
      simpa using (hall f hf).2.2
    simp [sortLeBy, hstat]
  · intro hall
    simp only [discoverClaudeSources]
    have hfilter : fs.filter (fun f =>
        (f.path = joinPath clh "projects" || isUnderDir (joinPath clh "projects") f.path) &&
        hasSuffixStr (toLower (goBase f.path)) ".jsonl" &&
        ¬ ((relComponents (joinPath clh "projects") f.path).dropLast.any
            (fun c => c = "subagents" || c = "memory"))) = [] := by
      rw [List.filter_eq_nil_iff]
      intro f hf
      obtain ⟨h1, h2⟩ := hall f hf
      simp [h1, h2]
    rw [hfilter]
    simp [sortLeBy]

/-- C7 amended, witness: on a concrete duplicate-free filesystem the codex
family's discovered paths are duplicate-free. -/
theorem discoverAllSources_per_family_witness :
    ((discoverCodexSources fsDiscoverW "/c").map (·.Path)).Nodup :=
  (discoverAllSources_per_family fsDiscoverW "/c" "/h" (by decide)).2.2.1

/-! ### C1: idempotence of `BuildIndex` -/

theorem lookupWm_upsert_self (l : List IngestedFile) (w : IngestedFile) :
    lookupWm (upsertWm l w) w.path = some w := by
  induction l with
  | nil => simp [upsertWm, lookupWm]
  | cons x xs ih =>
    by_cases h : x.path = w.path
    · simp [upsertWm, lookupWm, h]
    · show lookupWm (if x.path = w.path then w :: xs else x :: upsertWm xs w) w.path = some w
      rw [if_neg h]
      show List.find? _ (x :: upsertWm xs w) = some w
      rw [List.find?_cons_of_neg]
      · exact ih
      · simp [h]

theorem lookupWm_upsert_ne (l : List IngestedFile) (w : IngestedFile) (p : String)
    (h : p ≠ w.path) : lookupWm (upsertWm l w) p = lookupWm l p := by
  induction l with
  | nil =>
    show List.find? _ [w] = List.find? _ []
    rw [List.find?_cons_of_neg]
    simp [Ne.symm h]
  | cons x xs ih =>
    by_cases hx : x.path = w.path
    · show lookupWm (if x.path = w.path then w :: xs else x :: upsertWm xs w) p = _
      rw [if_pos hx]
      show List.find? _ (w :: xs) = List.find? _ (x :: xs)
      rw [List.find?_cons_of_neg, List.find?_cons_of_neg] <;>
        simp [hx, Ne.symm h]
    · show lookupWm (if x.path = w.path then w :: xs else x :: upsertWm xs w) p = _
      rw [if_neg hx]
      show List.find? _ (x :: upsertWm xs w) = List.find? _ (x :: xs)
      by_cases hxp : x.path = p
      · rw [List.find?_cons_of_pos, List.find?_cons_of_pos] <;> simp [hxp]
      · rw [List.find?_cons_of_neg, List.find?_cons_of_neg]
        · exact ih
        · simp [hxp]
        · simp [hxp]

theorem mem_upsertWm (l : List IngestedFile) (w x : IngestedFile)
    (hx : x ∈ upsertWm l w) : x = w ∨ x ∈ l := by
  induction l with
  | nil => simp [upsertWm] at hx; exact Or.inl hx
  | cons a xs ih =>
    by_cases h : a.path = w.path
    · rw [show upsertWm (a :: xs) w = if a.path = w.path then w :: xs else a :: upsertWm xs w
          from rfl, if_pos h] at hx
      rcases List.mem_cons.mp hx with rfl | hx
      · exact Or.inl rfl
      · exact Or.inr (List.mem_cons_of_mem a hx)
    · rw [show upsertWm (a :: xs) w = if a.path = w.path then w :: xs else a :: upsertWm xs w
          from rfl, if_neg h] at hx
      rcases List.mem_cons.mp hx with rfl | hx
      · exact Or.inr (List.mem_cons_self x xs)
      · rcases ih hx with h1 | h1
        · exact Or.inl h1
        · exact Or.inr (List.mem_cons_of_mem a h1)

theorem insertEvent_ingested (src : SourceFile) (e : ParsedEvent) (st : DbState) :
    (insertEvent src e st).ingested = st.ingested := by
  unfold insertEvent; split_ifs <;> rfl

theorem foldl_insertEvent_ingested (src : SourceFile) (evts : List ParsedEvent) :
    ∀ st : DbState,
      (evts.foldl (fun s e => insertEvent src e s) st).ingested = st.ingested := by
  induction evts with
  | nil => intro st; rfl
  | cons a rest ih =>
    intro st
    show (rest.foldl _ (insertEvent src a st)).ingested = st.ingested
    rw [ih, insertEvent_ingested]

theorem ingestLine_ingested (src : SourceFile) (st : DbState) (line : String) :
    (ingestLine src st line).ingested = st.ingested := by
  unfold ingestLine
  cases parseLineFor src.Source line src.Path with
  | error e => rfl
  | ok evts => exact foldl_insertEvent_ingested src evts st

theorem scanFrom_ingested (src : SourceFile) (f : FsFile) (off : Int) (st : DbState) :
    (scanFrom src f off st).ingested = st.ingested := by
  unfold scanFrom
  generalize goScanLines (dropStr f.content off.toNat) = lines
  induction lines generalizing st with
  | nil => rfl
  | cons a rest ih =>
    show (rest.foldl (ingestLine src) (ingestLine src st a)).ingested = st.ingested
    rw [ih, ingestLine_ingested]

theorem ingestFile_none (fs : Fs) (st : DbState) (src : SourceFile)
    (h : statFs fs src.Path = none) : ingestFile fs st src = st := by
  unfold ingestFile
  rw [h]

theorem ingestFile_ingested_some (fs : Fs) (st : DbState) (src : SourceFile)
    (f : FsFile) (hf : statFs fs src.Path = some f) :
    (ingestFile fs st src).ingested =
      upsertWm st.ingested ⟨src.Path, f.mtime, fileSize f, fileSize f, src.Source⟩ := by
  simp only [ingestFile, hf]
  rw [scanFrom_ingested]
  split_ifs <;> rfl

theorem dropStr_all (s : String) : dropStr s (strLen s) = "" := by
  show (⟨s.data.drop s.data.length⟩ : String) = ""
  rw [List.drop_length]

theorem scanFrom_at_end (src : SourceFile) (f : FsFile) (st : DbState) :
    scanFrom src f (fileSize f) st = st := by
  unfold scanFrom
  have h1 : (fileSize f).toNat = strLen f.content := by
    simp [fileSize]
  rw [h1, dropStr_all]
  rfl

theorem ingestFile_noop (fs : Fs) (st : DbState) (src : SourceFile)
    (h : wmMatchesFile fs st.ingested src.Path) :
    (ingestFile fs st src).messages = st.messages ∧
    (ingestFile fs st src).fts = st.fts ∧
    (ingestFile fs st src).sessions = st.sessions ∧
    (ingestFile fs st src).nextId = st.nextId := by
  obtain ⟨w, f, hlook, hstat, hoff, hmt⟩ := h
  have hns : (decide (fileSize f < w.offset) || decide (f.mtime < w.mtime) ||
      (decide (f.mtime ≠ w.mtime) && decide (fileSize f = w.size))) = false := by
    rw [hoff, hmt]
    simp
  simp only [ingestFile, hstat, hlook, hns, Bool.false_eq_true, if_false]
  rw [hoff, scanFrom_at_end]
  exact ⟨rfl, rfl, rfl, rfl⟩

theorem ingestFile_establishes (fs : Fs) (st : DbState) (src : SourceFile)
    (f : FsFile) (hstat : statFs fs src.Path = some f) :
    wmMatchesFile fs (ingestFile fs st src).ingested src.Path := by
  refine ⟨⟨src.Path, f.mtime, fileSize f, fileSize f, src.Source⟩, f, ?_, hstat, rfl, rfl⟩
  rw [ingestFile_ingested_some fs st src f hstat]
  exact lookupWm_upsert_self st.ingested _

theorem ingestFile_preserves_match (fs : Fs) (st : DbState) (src : SourceFile)
    (p : String) (h : wmMatchesFile fs st.ingested p) :
    wmMatchesFile fs (ingestFile fs st src).ingested p := by
  obtain ⟨w, f, hlook, hstat, hoff, hmt⟩ := h
  cases hs : statFs fs src.Path with
  | none =>
    rw [ingestFile_none fs st src hs]
    exact ⟨w, f, hlook, hstat, hoff, hmt⟩
  | some g =>
    by_cases hp : p = src.Path
    · subst hp
      exact ingestFile_establishes fs st src g hs
    · refine ⟨w, f, ?_, hstat, hoff, hmt⟩
      rw [ingestFile_ingested_some fs st src g hs, lookupWm_upsert_ne _ _ _ hp]
      exact hlook

theorem foldl_ingestFile_preserves (fs : Fs) (srcs : List SourceFile) (p : String) :
    ∀ st : DbState, wmMatchesFile fs st.ingested p →
      wmMatchesFile fs ((srcs.foldl (ingestFile fs) st)).ingested p := by
  induction srcs with
  | nil => intro st h; exact h
  | cons a rest ih =>
    intro st h
    exact ih (ingestFile fs st a) (ingestFile_preserves_match fs st a p h)

theorem foldl_ingestFile_establishes (fs : Fs) (srcs : List SourceFile)
    (hall : ∀ s ∈ srcs, ∃ f, statFs fs s.Path = some f) :
    ∀ st : DbState, ∀ s ∈ srcs,
      wmMatchesFile fs ((srcs.foldl (ingestFile fs) st)).ingested s.Path := by
  induction srcs with
  | nil => intro st s hs; cases hs
  | cons a rest ih =>
    intro st s hs
    show wmMatchesFile fs ((rest.foldl (ingestFile fs) (ingestFile fs st a))).ingested s.Path
    rcases List.mem_cons.mp hs with rfl | hs
    · obtain ⟨f, hf⟩ := hall s (List.mem_cons_self s rest)
      exact foldl_ingestFile_preserves fs rest s.Path (ingestFile fs st s)
        (ingestFile_establishes fs st s f hf)
    · exact ih (fun t ht => hall t (List.mem_cons_of_mem a ht)) (ingestFile fs st a) s hs

theorem foldl_ingestFile_noop (fs : Fs) (srcs : List SourceFile) :
    ∀ st : DbState, (∀ s ∈ srcs, wmMatchesFile fs st.ingested s.Path) →
      (srcs.foldl (ingestFile fs) st).messages = st.messages ∧
      (srcs.foldl (ingestFile fs) st).fts = st.fts ∧
      (srcs.foldl (ingestFile fs) st).sessions = st.sessions ∧
      (srcs.foldl (ingestFile fs) st).nextId = st.nextId := by
  induction srcs with
  | nil => intro st h; exact ⟨rfl, rfl, rfl, rfl⟩
  | cons a rest ih =>
    intro st h
    have hstep := ingestFile_noop fs st a (h a (List.mem_cons_self a rest))
    have hrest : ∀ s ∈ rest, wmMatchesFile fs (ingestFile fs st a).ingested s.Path :=
      fun s hs => ingestFile_preserves_match fs st a s.Path (h s (List.mem_cons_of_mem a hs))
    have htail := ih (ingestFile fs st a) hrest
    exact ⟨htail.1.trans hstep.1, htail.2.1.trans hstep.2.1,
      htail.2.2.1.trans hstep.2.2.1, htail.2.2.2.trans hstep.2.2.2⟩

theorem ingestFile_ingested_paths (fs : Fs) (st : DbState) (src : SourceFile)
    (w : IngestedFile) (hw : w ∈ (ingestFile fs st src).ingested) :
    w ∈ st.ingested ∨ w.path = src.Path := by
  cases hs : statFs fs src.Path with
  | none =>
    rw [ingestFile_none fs st src hs] at hw
    exact Or.inl hw
  | some f =>
    rw [ingestFile_ingested_some fs st src f hs] at hw
    rcases mem_upsertWm _ _ _ hw with rfl | h
    · exact Or.inr rfl
    · exact Or.inl h

theorem foldl_ingestFile_paths (fs : Fs) (srcs : List SourceFile) (P : List String)
    (hsrcs : ∀ s ∈ srcs, P.contains s.Path = true) :
    ∀ st : DbState, (∀ w ∈ st.ingested, P.contains w.path = true) →
      ∀ w ∈ (srcs.foldl (ingestFile fs) st).ingested, P.contains w.path = true := by
  induction srcs with
  | nil => intro st h w hw; exact h w hw
  | cons a rest ih =>
    intro st h w hw
    refine ih (fun s hs => hsrcs s (List.mem_cons_of_mem a hs)) (ingestFile fs st a)
      ?_ w hw
    intro v hv
    rcases ingestFile_ingested_paths fs st a v hv with hv1 | hp
    · exact h v hv1
    · rw [hp]
      exact hsrcs a (List.mem_cons_self a rest)

theorem pruneMissingSources_noop (st : DbState) (srcs : List SourceFile)
    (h : ∀ w ∈ st.ingested, (srcs.map (·.Path)).contains w.path = true) :
    pruneMissingSources st srcs = st := by
  have hstale : (st.ingested.map (·.path)).filter
      (fun p => ¬ (srcs.map (·.Path)).contains p) = [] := by
    rw [List.filter_eq_nil_iff]
    intro p hp
    obtain ⟨w, hw, rfl⟩ := List.mem_map.mp hp
    simpa using h w hw
  simp only [pruneMissingSources, hstale]
  rfl

theorem pruneOne_ingested_sub (st : DbState) (q : String) (w : IngestedFile)
    (hw : w ∈ (pruneOne st q).ingested) : w ∈ st.ingested ∧ w.path ≠ q := by
  have hw2 : w ∈ st.ingested.filter (fun v => ¬ v.path == q) := hw
  rw [List.mem_filter] at hw2
  refine ⟨hw2.1, ?_⟩
  have := hw2.2
  simpa using this

theorem foldl_pruneOne_ingested_sub (ps : List String) :
    ∀ (st : DbState) (w : IngestedFile), w ∈ ((ps.foldl pruneOne st)).ingested →
      w ∈ st.ingested ∧ ∀ q ∈ ps, w.path ≠ q := by
  induction ps with
  | nil =>
    intro st w h
    exact ⟨h, fun q hq => absurd hq (List.not_mem_nil q)⟩
  | cons a rest ih =>
    intro st w h
    obtain ⟨h1, h2⟩ := ih (pruneOne st a) w h
    obtain ⟨h3, h4⟩ := pruneOne_ingested_sub st a w h1
    refine ⟨h3, fun q hq => ?_⟩
    rcases List.mem_cons.mp hq with rfl | hq
    · exact h4
    · exact h2 q hq

theorem pruneMissingSources_sub (st : DbState) (srcs : List SourceFile) :
    ∀ w ∈ (pruneMissingSources st srcs).ingested,
      (srcs.map (·.Path)).contains w.path = true := by
  intro w hw
  simp only [pruneMissingSources] at hw
  split at hw
  · next hempty =>
    have hnil : (st.ingested.map (·.path)).filter
        (fun p => ¬ (srcs.map (·.Path)).contains p) = [] := by
      simpa using hempty
    have hmem : w.path ∈ st.ingested.map (·.path) :=
      List.mem_map_of_mem _ hw
    have := List.filter_eq_nil_iff.mp hnil _ hmem
    simpa using this
  · next hempty =>
    obtain ⟨h1, h2⟩ := foldl_pruneOne_ingested_sub _ _ _ hw
    by_contra hc
    refine h2 w.path ?_ rfl
    rw [List.mem_filter]
    refine ⟨List.mem_map_of_mem _ h1, ?_⟩
    simpa using hc

theorem statFs_of_mem (fs : Fs) (f : FsFile) (hf : f ∈ fs) :
    ∃ g, statFs fs f.path = some g := by
  have h : (fs.find? (fun g => g.path = f.path)).isSome = true := by
    rw [List.find?_isSome]
    exact ⟨f, hf, by simp⟩
  exact Option.isSome_iff_exists.mp h

theorem discoverCodex_stat (fs : Fs) (ch : String) (src : SourceFile)
    (h : src ∈ discoverCodexSources fs ch) : ∃ f, statFs fs src.Path = some f := by
  simp only [discoverCodexSources] at h
  split at h
  · have hmem := (sortLeBy_perm (fun a b : SourceFile => strLe a.Path b.Path) _).mem_iff.mp h
    obtain ⟨f, hf, heq⟩ := List.mem_map.mp hmem
    have hfs : f ∈ fs := List.mem_of_mem_filter hf
    rw [← heq]
    exact statFs_of_mem fs f hfs
  · cases hstat : statFs fs (joinPath ch "history.jsonl") with
    | none =>
      rw [hstat] at h
      cases h
    | some g =>
      rw [hstat] at h
      rcases List.mem_singleton.mp h with rfl
      exact ⟨g, hstat⟩

theorem discoverClaude_stat (fs : Fs) (clh : String) (src : SourceFile)
    (h : src ∈ discoverClaudeSources fs clh) : ∃ f, statFs fs src.Path = some f := by
  simp only [discoverClaudeSources] at h
  have hmem := (sortLeBy_perm (fun a b : SourceFile => strLe a.Path b.Path) _).mem_iff.mp h
  obtain ⟨f, hf, heq⟩ := List.mem_map.mp hmem
  have hfs : f ∈ fs := List.mem_of_mem_filter hf
  rw [← heq]
  exact statFs_of_mem fs f hfs

theorem discoverAll_stat (fs : Fs) (ch clh : String) (src : SourceFile)
    (h : src ∈ discoverAllSources fs ch clh) : ∃ f, statFs fs src.Path = some f := by
  rcases List.mem_append.mp h with h | h
  · exact discoverCodex_stat fs ch src h
  · exact discoverClaude_stat fs clh src h

theorem buildIndex_eq (fs : Fs) (ch clh : String) (st : DbState) :
    BuildIndex fs ch clh st =
      refreshSessions ((discoverAllSources fs ch clh).foldl (ingestFile fs)
        (pruneMissingSources st (discoverAllSources fs ch clh))) := by
  simp only [BuildIndex]
  split
  · next h =>
    rw [List.isEmpty_iff.mp h]
    rfl
  · rfl

/-- C1: `BuildIndex` is idempotent.  Running it a second time over the same
filesystem (no change to any discovered file between the two runs) leaves the
message table and the session table identical to what the first run left, for
every filesystem, every pair of home directories and every initial database
state. -/
theorem BuildIndex_idempotent (fs : Fs) (ch clh : String) (st : DbState) :
    (BuildIndex fs ch clh (BuildIndex fs ch clh st)).messages =
      (BuildIndex fs ch clh st).messages ∧
    (BuildIndex fs ch clh (BuildIndex fs ch clh st)).sessions =
      (BuildIndex fs ch clh st).sessions := by
  have hstat : ∀ s ∈ discoverAllSources fs ch clh, ∃ f, statFs fs s.Path = some f :=
    fun s hs => discoverAll_stat fs ch clh s hs
  have hB1 := buildIndex_eq fs ch clh st
  have hsubA : ∀ w ∈ ((discoverAllSources fs ch clh).foldl (ingestFile fs)
      (pruneMissingSources st (discoverAllSources fs ch clh))).ingested,
      ((discoverAllSources fs ch clh).map (·.Path)).contains w.path = true :=
    foldl_ingestFile_paths fs _ _
      (fun s hs => by
        simpa using List.mem_map_of_mem (fun x : SourceFile => x.Path) hs) _
      (pruneMissingSources_sub st _)
  have hmatchA : ∀ s ∈ discoverAllSources fs ch clh,
      wmMatchesFile fs ((discoverAllSources fs ch clh).foldl (ingestFile fs)
        (pruneMissingSources st (discoverAllSources fs ch clh))).ingested s.Path :=
    foldl_ingestFile_establishes fs _ hstat _
  have hB2 := buildIndex_eq fs ch clh (BuildIndex fs ch clh st)
  have hprune : pruneMissingSources (BuildIndex fs ch clh st)
      (discoverAllSources fs ch clh) = BuildIndex fs ch clh st := by
    apply pruneMissingSources_noop
    intro w hw
    apply hsubA
    rw [hB1] at hw
    exact hw
  have hnoop := foldl_ingestFile_noop fs (discoverAllSources fs ch clh)
    (BuildIndex fs ch clh st)
    (by
      intro s hs
      have hm := hmatchA s hs
      rw [hB1]
      exact hm)
  constructor
  · rw [hB2, hprune]
    exact hnoop.1
  · rw [hB2, hprune]
    show sessionsOfMessages ((discoverAllSources fs ch clh).foldl (ingestFile fs)
        (BuildIndex fs ch clh st)).messages = (BuildIndex fs ch clh st).sessions
    rw [hnoop.1, hB1]
    rfl

end AgentTrace
